import Mathlib

/-!
Verification of the script registry and hot-swap subsystem of
WarheadCore (`src/server/game/Scripting/ScriptMgr.cpp`).

The development shallowly embeds the identifier-bound script registry
(`SpecializedScriptRegistry<ScriptType, true>`), the registry compositum
(`ScriptRegistryCompositum`), and the creature/game-object swap hooks
(`CreatureGameObjectScriptRegistrySwapHooks`) as pure functions over an
explicit state record.  C++ unordered maps and multimaps are embedded as
association lists (entry order stands in for the container's iteration
order; all reasoning is membership-based where the container is
unordered).  Machine integers hold small ids and never overflow in this
subsystem, so they are embedded as `Nat`.

Assertion macros (`ASSERT`, `ABORT`, `ABORT_MSG`) are defined in
`Errors.h`, which is not part of the sources; following the spec
(sections 4.1 and 7), invariant-violation assertions are embedded as
always fatal (a sticky `fatal` flag on the state), and the
configuration-error aborts on the duplicate-registration path are fatal
only when a `debug` flag is set.  `ScriptObject::IsAfterLoadDB` is also
not part of the sources and is modelled from the spec (section 4.5): it
holds for flagged behaviors until the identifier table has loaded.
-/

namespace ScriptMgr

/-- A behavior instance (`ScriptObject`): an immutable name, a pointer
identity `iid` distinguishing distinct instances, and the
after-database-load flag carried by `IsAfterLoadDB`. -/
structure Script where
  name : String
  iid : Nat
  afterLoadDB : Bool
deriving DecidableEq, Repr

/-- Observable events emitted by the embedded operations, in program
order.  They record error logging, successful registrations, the
destruction performed when the delayed-delete queue is drained, and the
points at which the compositum hands control to each registered
category. -/
inductive Event where
  /-- `LOG_ERROR("sql.sql", "... database does not assign it ...")`. -/
  | errorNoId (name : String)
  /-- The duplicate-registration error on the `AddScript` path. -/
  | errorDuplicate (name : String)
  /-- A script was inserted into the `_scripts` store under this id. -/
  | registered (id : Nat) (iid : Nat)
  /-- An object from the delayed-delete queue was destroyed. -/
  | destroyed (iid : Nat)
  /-- The compositum invoked `SwapContext` of category `k`. -/
  | categorySwap (k : Nat)
  /-- The compositum invoked `ReleaseContext` of category `k`. -/
  | categoryRelease (k : Nat)
  /-- The compositum erased one `_scriptnames_to_context` entry. -/
  | erasedName (name : String)
deriving DecidableEq, Repr

/-- An attached AI instance: `tag` is the allocation identity of the
object (fresh tags are drawn from a monotone counter), `srcId` the
script id the factory used when constructing it. -/
structure AI where
  tag : Nat
  srcId : Nat
deriving DecidableEq, Repr

/-- A live simulation entity of the creature/game-object category, with
the fields the swap hooks read and write: guid (0 embeds the empty
`ObjectGuid`), the externally assigned script id, liveness, charm state,
the `UNIT_STATE_EVADE` flag, whether the AI has been initialized and
enabled, the count of deletable queued events, and the optionally
attached AI. -/
structure Entity where
  guid : Nat
  scriptId : Nat
  alive : Bool
  charmed : Bool
  evadeState : Bool
  aiReady : Bool
  events : Nat
  ai : Option AI
deriving DecidableEq, Repr

/-- The world as seen through `sMapMgr->DoForAllMaps`: a list of maps,
each holding its entities, together with the AI allocation counter and
the tags of AI instances destroyed so far. -/
structure WorldSt where
  maps : List (List Entity)
  nextTag : Nat
  destroyedTags : List Nat
deriving DecidableEq, Repr

/-- `UnloadResetScript(Creature*)`: kill the deletable events, drop a
charm if present, and push a live entity through
`AI()->EnterEvadeMode()`. -/
def unloadResetScript (e : Entity) : Entity :=
  { e with
    events := 0
    charmed := false
    evadeState := if e.alive then true else e.evadeState }

/-- `UnloadDestroyScript`: `AIM_Destroy` the attached AI (infallible at
this layer, per the source assertions). -/
def unloadDestroyScript (e : Entity) : Entity :=
  { e with ai := none }

/-- `LoadInitializeScript`: clear `UNIT_STATE_EVADE` on a live entity,
then `AIM_Create` a fresh AI from the entity's current script id.  The
fresh instance carries allocation tag `t`. -/
def loadCreateScript (e : Entity) (t : Nat) : Entity :=
  { e with
    evadeState := if e.alive then false else e.evadeState
    aiReady := false
    ai := some ⟨t, e.scriptId⟩ }

/-- `LoadResetScript`: on a live entity, `AI_InitializeAndEnable`, enter
evade mode with the new AI, and schedule the asynchronous hot-swap
visual event. -/
def loadResetScript (e : Entity) : Entity :=
  if e.alive then
    { e with aiReady := true, evadeState := true, events := e.events + 1 }
  else
    e

/-- `GetEntityFromMap`: guid lookup in one map's object store. -/
def findByGuid (m : List Entity) (g : Nat) : Option Entity :=
  m.find? (fun e => e.guid = g)

/-- Update the (unique) entity stored under guid `g`; the C++ object
store is keyed by guid, so only the first match is updated. -/
def updByGuid (f : Entity → Entity) (g : Nat) : List Entity → List Entity
  | [] => []
  | e :: es => if e.guid = g then f e :: es else e :: updByGuid f g es

/-- The guid-collection pass of `DestroyScriptIdsFromSet`: guids of
entities whose script id is being removed, that have an AI and a
non-empty guid. -/
def guidsToReset (ids : List Nat) (m : List Entity) : List Nat :=
  (m.filter (fun e => decide (e.scriptId ∈ ids) && e.ai.isSome && decide (e.guid ≠ 0))).map (·.guid)

/-- The reset loop of `DestroyScriptIdsFromSet`: look each collected
guid up again and run `UnloadResetScript` on the entity if it is still
found. -/
def resetPass (gs : List Nat) (m : List Entity) : List Entity :=
  gs.foldl (fun acc g =>
    match findByGuid acc g with
    | some _ => updByGuid unloadResetScript g acc
    | none => acc) m

/-- The destroy loop of `DestroyScriptIdsFromSet`: destroy the AI of
every entity whose script id is in the removal set. -/
def destroyEnts (ids : List Nat) (m : List Entity) : List Entity :=
  m.map (fun e => if e.scriptId ∈ ids then unloadDestroyScript e else e)

/-- Allocation tags of the AI instances the destroy loop destroys. -/
def destroyedOf (ids : List Nat) (m : List Entity) : List Nat :=
  m.filterMap (fun e => if e.scriptId ∈ ids then e.ai.map (·.tag) else none)

/-- `DestroyScriptIdsFromSet`, one map at a time: collect and reset by
guid, then destroy all matching AIs, accumulating destroyed tags. -/
def destroyMapsGo (ids : List Nat) : List (List Entity) → List Nat → List (List Entity) × List Nat
  | [], d => ([], d)
  | m :: ms, d =>
    let m1 := resetPass (guidsToReset ids m) m
    let m2 := destroyEnts ids m1
    let (ms', d') := destroyMapsGo ids ms (d ++ destroyedOf ids m1)
    (m2 :: ms', d')

/-- `DestroyScriptIdsFromSet` over the whole world. -/
def destroyScriptIdsFromSet (ids : List Nat) (w : WorldSt) : WorldSt :=
  let (ms, d) := destroyMapsGo ids w.maps w.destroyedTags
  { w with maps := ms, destroyedTags := d }

/-- First pass of `InitializeScriptIdsFromSet` on one map: create a
fresh AI for every AI-less, non-empty-guid entity whose script id is in
the set, collecting the guids and threading the allocation counter. -/
def createPass (ids : List Nat) : List Entity → Nat → List Entity × Nat × List Nat
  | [], t => ([], t, [])
  | e :: es, t =>
    if e.scriptId ∈ ids ∧ e.ai = none ∧ e.guid ≠ 0 then
      let (es', t', gs) := createPass ids es (t + 1)
      (loadCreateScript e t :: es', t', e.guid :: gs)
    else
      let (es', t', gs) := createPass ids es t
      (e :: es', t', gs)

/-- Second pass of `InitializeScriptIdsFromSet` on one map: look each
collected guid up again; when found, re-create the AI if it is missing
and run `LoadResetScript`. -/
def resetNewPass : List Nat → List Entity → Nat → List Entity × Nat
  | [], m, t => (m, t)
  | g :: gs, m, t =>
    match findByGuid m g with
    | none => resetNewPass gs m t
    | some e =>
      if e.ai = none then
        resetNewPass gs (updByGuid (fun x => loadResetScript (loadCreateScript x t)) g m) (t + 1)
      else
        resetNewPass gs (updByGuid loadResetScript g m) t

/-- `InitializeScriptIdsFromSet`, one map at a time. -/
def recreateMapsGo (ids : List Nat) : List (List Entity) → Nat → List (List Entity) × Nat
  | [], t => ([], t)
  | m :: ms, t =>
    let (m1, t1, gs) := createPass ids m t
    let (m2, t2) := resetNewPass gs m1 t1
    let (ms', t') := recreateMapsGo ids ms t2
    (m2 :: ms', t')

/-- `InitializeScriptIdsFromSet` over the whole world (the name avoids
a token the toolchain rejects). -/
def recreateScriptIdsFromSet (ids : List Nat) (w : WorldSt) : WorldSt :=
  let (ms, t) := recreateMapsGo ids w.maps w.nextTag
  { w with maps := ms, nextTag := t }

/-- The kinds of boolean-flag swap hooks registered beside the
creature/game-object category: `ScriptRegistrySwapHooks` for
`OutdoorPvPScript`, `InstanceMapScript` and `SpellScriptLoader`, each
tracking a single `swapped` flag over its own identifier-bound
storage. -/
inductive HookKind where
  | outdoorPvP
  | instanceMap
  | spellLoader
deriving DecidableEq, Repr

/-- One of the other identifier-bound categories registered in the
compositum, reduced to the state its hooks touch. -/
structure FlagCat where
  kind : HookKind
  swapped : Bool
  scripts : List (Nat × Script)
  idsOfContexts : List (String × Nat)
  recentlyAdded : List Nat
deriving DecidableEq, Repr

/-- Keys of an association list. -/
def keysOf {α β : Type} (l : List (α × β)) : List α :=
  l.map (·.1)

/-- `_ids_of_contexts.equal_range(context)`, collapsed to the list of
ids registered under that context. -/
def bucketIds (l : List (String × Nat)) (ctx : String) : List Nat :=
  (l.filter (fun p => decide (p.1 = ctx))).map (·.2)

/-- Union of id sets (`unordered_set::insert` of a range). -/
def unionIds (a b : List Nat) : List Nat :=
  a ++ b.filter (fun i => decide (i ∉ a))

/-- `unordered_map::insert`: a no-op when the key is already stored. -/
def insertIfAbsent (l : List (Nat × Script)) (id : Nat) (sc : Script) : List (Nat × Script) :=
  if id ∈ keysOf l then l else l ++ [(id, sc)]

/-- `BeforeReleaseContext` of the boolean-flag hooks (the bodies of the
`OutdoorPvPScript`, `InstanceMapScript` and `SpellScriptLoader`
specializations of `ScriptRegistrySwapHooks`). -/
def flagBeforeRelease (ctx : String) (c : FlagCat) : FlagCat :=
  match c.kind with
  | .outdoorPvP =>
    if ¬c.swapped ∧ bucketIds c.idsOfContexts ctx ≠ [] then { c with swapped := true } else c
  | .instanceMap =>
    if bucketIds c.idsOfContexts ctx ≠ [] then { c with swapped := true } else c
  | .spellLoader =>
    if bucketIds c.idsOfContexts ctx ≠ [] then { c with swapped := true } else c

/-- `ReleaseContext` of a flag category: run the hook, then erase the
context's ids from the script store. -/
def flagReleaseContext (ctx : String) (c : FlagCat) : FlagCat :=
  let c1 := flagBeforeRelease ctx c
  { c1 with scripts := c1.scripts.filter (fun p => decide (p.1 ∉ bucketIds c1.idsOfContexts ctx)) }

/-- `SwapContext` of a flag category: the `BeforeSwapContext` hook of
its kind, then clearing `_recently_added_ids`. -/
def flagSwapContext (isInit : Bool) (c : FlagCat) : FlagCat :=
  let c1 :=
    match c.kind with
    | .outdoorPvP => if ¬isInit ∧ c.swapped then { c with swapped := false } else c
    | .instanceMap => { c with swapped := false }
    | .spellLoader => if c.swapped then { c with swapped := false } else c
  { c1 with recentlyAdded := [] }

/-- The combined state of the subsystem: the current script context of
`ScriptMgr`, the sticky fatal-assertion flag, the spec-modelled
"identifier table has loaded" flag, the creature/game-object registry
(`_scripts`, `_ids_of_contexts`, `_recently_added_ids`, `_alScripts`)
with its hook's `ids_removed_` set, the simulation world, the other
registered categories, and the compositum's name-to-context map and
delayed-delete queue, plus the event log. -/
structure GlobalState where
  currentContext : String
  fatal : Bool
  dbLoaded : Bool
  scripts : List (Nat × Script)
  idsOfContexts : List (String × Nat)
  recentlyAdded : List Nat
  alScripts : List Script
  idsRemoved : List Nat
  world : WorldSt
  flagCats : List FlagCat
  nameToContext : List (String × String)
  queue : List Script
  log : List Event
deriving DecidableEq, Repr

/-- `GetScriptById`: O(1) lookup; absence is a normal outcome. -/
def getScriptById (s : GlobalState) (id : Nat) : Option Script :=
  (s.scripts.find? (fun p => decide (p.1 = id))).map (·.2)

/-- `GetScriptIDsToRemove`: the ids registered to a context. -/
def getScriptIDsToRemove (s : GlobalState) (ctx : String) : List Nat :=
  bucketIds s.idsOfContexts ctx

/-- `CreatureGameObjectScriptRegistrySwapHooks::BeforeReleaseContext`:
destroy the AIs of the context's ids across the world, then union those
ids into `ids_removed_`. -/
def beforeReleaseContextCG (ctx : String) (s : GlobalState) : GlobalState :=
  let ids := getScriptIDsToRemove s ctx
  { s with
    world := destroyScriptIdsFromSet ids s.world
    idsRemoved := unionIds s.idsRemoved ids }

/-- `CreatureGameObjectScriptRegistrySwapHooks::BeforeSwapContext`: a
no-op while the process is still in its first load; otherwise union the
recently added ids into `ids_removed_`, destroy then re-create the AIs
of that whole set, and clear `ids_removed_`. -/
def beforeSwapContextCG (isInit : Bool) (s : GlobalState) : GlobalState :=
  if isInit then s
  else
    let r := unionIds s.idsRemoved s.recentlyAdded
    { s with
      world := recreateScriptIdsFromSet r (destroyScriptIdsFromSet r s.world)
      idsRemoved := [] }

/-- `SpecializedScriptRegistry<ScriptType, true>::ReleaseContext` for
the creature/game-object category: the pre-release hook, then erasure
of the context's ids from `_scripts` (note: `_ids_of_contexts` itself
is not pruned by the source). -/
def creatureReleaseContext (ctx : String) (s : GlobalState) : GlobalState :=
  if s.fatal then s
  else
    let s1 := beforeReleaseContextCG ctx s
    { s1 with scripts := s1.scripts.filter (fun p => decide (p.1 ∉ bucketIds s1.idsOfContexts ctx)) }

/-- `SpecializedScriptRegistry<ScriptType, true>::SwapContext` for the
creature/game-object category: the pre-swap hook, then clearing
`_recently_added_ids`. -/
def creatureSwapContext (isInit : Bool) (s : GlobalState) : GlobalState :=
  if s.fatal then s
  else
    let s1 := beforeSwapContextCG isInit s
    { s1 with recentlyAdded := [] }

/-- `ScriptRegistryCompositum::SetScriptNameInContext`; its `ASSERT`
enforces the spec's context-partition invariant and is embedded as
always fatal. -/
def setScriptNameInContext (name ctx : String) (s : GlobalState) : GlobalState :=
  if name ∈ keysOf s.nameToContext then { s with fatal := true }
  else { s with nameToContext := s.nameToContext ++ [(name, ctx)] }

/-- `SpecializedScriptRegistry<ScriptType, true>::AddScript`.  `getId`
embeds `sObjectMgr->GetScriptId` (0 meaning "no id assigned").
Modelled from the spec for the parts outside the sources: the `ABORT`
pair on the duplicate-name path is fatal only when `debug` holds
(spec section 7: configuration errors abort only under debug
assertions), while the empty-context `ASSERT` is process-fatal (spec
section 4.1), and `IsAfterLoadDB` holds only until the identifier
table has loaded (spec section 4.5). -/
def addScript (getId : String → Nat) (debug : Bool) (sc : Script) (s : GlobalState) : GlobalState :=
  if s.fatal then s
  else if s.currentContext = "" then { s with fatal := true }
  else
    let id := getId sc.name
    if id = 0 then
      { s with queue := s.queue ++ [sc], log := s.log ++ [.errorNoId sc.name] }
    else if s.scripts.any (fun p => decide (p.2.name = sc.name)) then
      if debug then { s with fatal := true }
      else { s with queue := s.queue ++ [sc], log := s.log ++ [.errorDuplicate sc.name] }
    else if sc.afterLoadDB && !s.dbLoaded then
      { s with alScripts := s.alScripts ++ [sc] }
    else
      let s1 := { s with
        scripts := insertIfAbsent s.scripts id sc
        idsOfContexts := s.idsOfContexts ++ [(s.currentContext, id)]
        recentlyAdded := if id ∈ s.recentlyAdded then s.recentlyAdded else s.recentlyAdded ++ [id]
        log := s.log ++ [.registered id sc.iid] }
      setScriptNameInContext sc.name s.currentContext s1

/-- `AddALScripts`: replay the buffered after-database-load behaviors
through `AddScript` in insertion order, then clear the buffer. -/
def addALScripts (getId : String → Nat) (debug : Bool) (s : GlobalState) : GlobalState :=
  if s.fatal then s
  else if s.alScripts = [] then s
  else
    let s1 := s.alScripts.foldl (fun st sc => addScript getId debug sc st) s
    { s1 with alScripts := [] }

/-- `ScriptRegistryCompositum::SwapContext`: fan `SwapContext` out to
every registered category, then `DoDelayedDelete` the queue.  The log
records the per-category calls (category 0 is the creature/game-object
registry, category `k + 1` the `k`-th flag category) and the
destruction of each queued object. -/
def compositumSwapContext (isInit : Bool) (s : GlobalState) : GlobalState :=
  if s.fatal then s
  else
    let s1 := creatureSwapContext isInit s
    let s2 := { s1 with flagCats := s1.flagCats.map (flagSwapContext isInit) }
    { s2 with
      queue := []
      log := s2.log
        ++ (Event.categorySwap 0 :: (List.range s2.flagCats.length).map (fun i => Event.categorySwap (i + 1)))
        ++ s2.queue.map (fun sc => Event.destroyed sc.iid) }

/-- `ScriptRegistryCompositum::ReleaseContext`: fan `ReleaseContext`
out to every registered category, then erase every
`_scriptnames_to_context` entry of the released context. -/
def compositumReleaseContext (ctx : String) (s : GlobalState) : GlobalState :=
  if s.fatal then s
  else
    let s1 := creatureReleaseContext ctx s
    let s2 := { s1 with flagCats := s1.flagCats.map (flagReleaseContext ctx) }
    let erased := s2.nameToContext.filter (fun p => decide (p.2 = ctx))
    { s2 with
      nameToContext := s2.nameToContext.filter (fun p => decide (p.2 ≠ ctx))
      log := s2.log
        ++ (Event.categoryRelease 0 :: (List.range s2.flagCats.length).map (fun i => Event.categoryRelease (i + 1)))
        ++ erased.map (fun p => Event.erasedName p.1) }

/-- The reject-only registry (`SpecializedScriptRegistry` of
`BattlegroundScript`, whose hook is
`UnsupportedScriptRegistrySwapHooks`), reduced to the state its release
path touches. -/
structure BGRegistry where
  scripts : List (Nat × Script)
  idsOfContexts : List (String × Nat)
  recentlyAdded : List Nat
  fatal : Bool
deriving DecidableEq, Repr

/-- `ReleaseContext` of the reject-only registry: the
`UnsupportedScriptRegistrySwapHooks::BeforeReleaseContext` hook asserts
that no id is registered under the context (always fatal, spec section
7 invariant violations), then the erase loop runs over the context's
(necessarily empty) id range. -/
def bgReleaseContext (ctx : String) (r : BGRegistry) : BGRegistry :=
  if r.fatal then r
  else if bucketIds r.idsOfContexts ctx ≠ [] then { r with fatal := true }
  else { r with scripts := r.scripts.filter (fun p => decide (p.1 ∉ bucketIds r.idsOfContexts ctx)) }

/-- One registry-level operation of the identifier-bound
creature/game-object registry, together with the `SetScriptContext`
call that opens a context. -/
inductive Op where
  | setCtx (c : String)
  | add (sc : Script)
  | release (c : String)
  | swap (b : Bool)
deriving DecidableEq, Repr

/-- Apply one operation. -/
def applyOp (getId : String → Nat) (debug : Bool) : Op → GlobalState → GlobalState
  | .setCtx c, s => { s with currentContext := c }
  | .add sc, s => addScript getId debug sc s
  | .release c, s => creatureReleaseContext c s
  | .swap b, s => creatureSwapContext b s

/-- Run a sequence of operations from a starting state. -/
def runOps (getId : String → Nat) (debug : Bool) (ops : List Op) (s : GlobalState) : GlobalState :=
  ops.foldl (fun st op => applyOp getId debug op st) s

/-- The empty starting state of the subsystem. -/
def initState : GlobalState :=
  { currentContext := ""
    fatal := false
    dbLoaded := false
    scripts := []
    idsOfContexts := []
    recentlyAdded := []
    alScripts := []
    idsRemoved := []
    world := { maps := [], nextTag := 0, destroyedTags := [] }
    flagCats := []
    nameToContext := []
    queue := []
    log := [] }

/-! ### Basic lemmas about the embedded containers -/

theorem mem_unionIds {a : Nat} {l r : List Nat} :
    a ∈ unionIds l r ↔ a ∈ l ∨ a ∈ r := by
  simp only [unionIds, List.mem_append, List.mem_filter, decide_eq_true_eq]
  by_cases h : a ∈ l <;> tauto

theorem bucketIds_ne_nil_iff {l : List (String × Nat)} {ctx : String} :
    bucketIds l ctx ≠ [] ↔ ∃ id, (ctx, id) ∈ l := by
  simp only [bucketIds, ne_eq, List.map_eq_nil_iff, List.filter_eq_nil_iff,
    decide_eq_true_eq, not_forall, not_not]
  constructor
  · rintro ⟨p, hp, hctx⟩
    exact ⟨p.2, by rwa [show (ctx, p.2) = p from Prod.ext (by simp [hctx]) rfl]⟩
  · rintro ⟨id, hid⟩
    exact ⟨(ctx, id), hid, by simp⟩

theorem mem_bucketIds {l : List (String × Nat)} {ctx : String} {id : Nat} :
    id ∈ bucketIds l ctx ↔ (ctx, id) ∈ l := by
  simp only [bucketIds, List.mem_map, List.mem_filter, decide_eq_true_eq]
  constructor
  · rintro ⟨p, ⟨hp, hctx⟩, hid⟩
    rwa [show (ctx, id) = p from Prod.ext (by simp [hctx]) (by simp [hid])]
  · intro h
    exact ⟨(ctx, id), ⟨h, rfl⟩, rfl⟩

/-! ### C2: release completeness for identifier-bound registries -/

/-- The statement of claim C2 at a given state and context: after
`ReleaseContext(ctx)`, no id registered under `ctx` is retrievable by
`GetScriptById`, and the `_ids_of_contexts` index holds no entry whose
context is `ctx`. -/
def c2Claim (s : GlobalState) (ctx : String) : Prop :=
  (∀ id ∈ getScriptIDsToRemove s ctx, getScriptById (creatureReleaseContext ctx s) id = none) ∧
  (∀ p ∈ (creatureReleaseContext ctx s).idsOfContexts, p.1 ≠ ctx)

/-- A registry holding script "A" under id 1 in context "m1". -/
def sC2ex : GlobalState :=
  { initState with
    scripts := [(1, ⟨"A", 10, false⟩)]
    idsOfContexts := [("m1", 1)] }

/-- C2 fails on the code: releasing "m1" erases the script store but
leaves the `("m1", 1)` entry in the `_ids_of_contexts` index, because
`SpecializedScriptRegistry<ScriptType, true>::ReleaseContext` never
prunes the index. -/
theorem c2_counterexample : ¬ c2Claim sC2ex "m1" := by
  intro h
  exact h.2 ("m1", 1) (by decide) rfl

/-- C2, amended: after `ReleaseContext(ctx)` every id registered under
`ctx` is no longer retrievable via `GetScriptById`, but the
`_ids_of_contexts` index is left untouched (it is only cleared at
`Unload`). -/
theorem c2_amended (s : GlobalState) (ctx : String) (h : s.fatal = false) :
    (∀ id ∈ getScriptIDsToRemove s ctx, getScriptById (creatureReleaseContext ctx s) id = none) ∧
    (creatureReleaseContext ctx s).idsOfContexts = s.idsOfContexts := by
  have hscr : (creatureReleaseContext ctx s).scripts =
      s.scripts.filter (fun p => decide (p.1 ∉ bucketIds s.idsOfContexts ctx)) := by
    simp [creatureReleaseContext, h, beforeReleaseContextCG]
  have hids : (creatureReleaseContext ctx s).idsOfContexts = s.idsOfContexts := by
    simp [creatureReleaseContext, h, beforeReleaseContextCG]
  refine ⟨?_, hids⟩
  intro id hid
  simp only [getScriptById, hscr, Option.map_eq_none']
  rw [List.find?_eq_none]
  intro p hp
  have hmem := List.of_mem_filter hp
  simp only [decide_eq_true_eq] at hmem ⊢
  intro hcontra
  exact hmem (by rwa [hcontra])

/-- Witness for the amended C2 at the concrete registry `sC2ex`. -/
theorem c2_amended_witness :
    sC2ex.fatal = false ∧
    ((∀ id ∈ getScriptIDsToRemove sC2ex "m1",
        getScriptById (creatureReleaseContext "m1" sC2ex) id = none) ∧
      (creatureReleaseContext "m1" sC2ex).idsOfContexts = sC2ex.idsOfContexts) :=
  ⟨rfl, c2_amended sC2ex "m1" rfl⟩

/-! ### C8: the reject-only (never hot-swapped) category -/

/-- C8: for the reject-only `BattlegroundScript` registry, releasing a
context with at least one id registered under it trips the fatal
assertion in `UnsupportedScriptRegistrySwapHooks::BeforeReleaseContext`,
and releasing a context with no ids registered under it is a no-op. -/
theorem c8_confirmed (r : BGRegistry) (ctx : String) (h : r.fatal = false) :
    ((∃ id, (ctx, id) ∈ r.idsOfContexts) → (bgReleaseContext ctx r).fatal = true) ∧
    ((¬ ∃ id, (ctx, id) ∈ r.idsOfContexts) → bgReleaseContext ctx r = r) := by
  obtain ⟨rs, ri, rr, rf⟩ := r
  simp only at h
  subst h
  constructor
  · intro hex
    have hb : bucketIds ri ctx ≠ [] := bucketIds_ne_nil_iff.mpr hex
    simp [bgReleaseContext, hb]
  · intro hnex
    have hb : bucketIds ri ctx = [] := by
      by_contra hc
      exact hnex (bucketIds_ne_nil_iff.mp hc)
    have hfilter : rs.filter (fun p => decide (p.1 ∉ bucketIds ri ctx)) = rs := by
      apply List.filter_eq_self.mpr
      intro p _
      simp [hb]
    simp [bgReleaseContext, hb, hfilter]

/-- A reject-only registry with id 3 registered under context "bg". -/
def bgEx : BGRegistry :=
  { scripts := [(3, ⟨"BG", 1, false⟩)], idsOfContexts := [("bg", 3)],
    recentlyAdded := [], fatal := false }

/-- Witness for C8 at the concrete registry `bgEx`. -/
theorem c8_witness :
    bgEx.fatal = false ∧
    (((∃ id, ("bg", id) ∈ bgEx.idsOfContexts) → (bgReleaseContext "bg" bgEx).fatal = true) ∧
      ((¬ ∃ id, ("bg", id) ∈ bgEx.idsOfContexts) → bgReleaseContext "bg" bgEx = bgEx)) :=
  ⟨rfl, c8_confirmed bgEx "bg" rfl⟩

/-! ### C3: duplicate registration in the same context -/

/-- C3: adding a second, distinct instance under an already-registered
name (debug assertions off) leaves the script store untouched, queues
the rejected instance on the delayed-delete queue, logs the duplicate
error, does not kill the process, and `GetScriptById` keeps answering
with the first instance. -/
theorem c3_confirmed (getId : String → Nat) (sc1 sc2 : Script) (id : Nat) (s : GlobalState)
    (hfatal : s.fatal = false) (hctx : s.currentContext ≠ "")
    (hname : sc1.name = sc2.name) (hid : getId sc2.name ≠ 0)
    (hfind : getScriptById s id = some sc1) :
    (addScript getId false sc2 s).scripts = s.scripts ∧
    (addScript getId false sc2 s).queue = s.queue ++ [sc2] ∧
    (addScript getId false sc2 s).fatal = false ∧
    getScriptById (addScript getId false sc2 s) id = some sc1 ∧
    (addScript getId false sc2 s).log = s.log ++ [Event.errorDuplicate sc2.name] := by
  have hex : ∃ p ∈ s.scripts, p.2.name = sc1.name := by
    simp only [getScriptById, Option.map_eq_some'] at hfind
    obtain ⟨p, hp, hval⟩ := hfind
    exact ⟨p, List.mem_of_find?_eq_some hp, by rw [hval]⟩
  have hany : s.scripts.any (fun p => decide (p.2.name = sc2.name)) = true := by
    obtain ⟨p, hp, hpn⟩ := hex
    exact List.any_eq_true.mpr ⟨p, hp, by simp [hpn, hname]⟩
  have hstep : addScript getId false sc2 s =
      { s with queue := s.queue ++ [sc2], log := s.log ++ [Event.errorDuplicate sc2.name] } := by
    simp [addScript, hfatal, hctx, hid, hany]
  rw [hstep]
  exact ⟨rfl, rfl, hfatal, hfind, rfl⟩

/-- The registry of `sC2ex` with context "m1" open, the name-to-id
assignment used in the C3 witness, and the two distinct instances of
script name "A". -/
def sC3ex : GlobalState :=
  { sC2ex with currentContext := "m1" }

def gidC3 : String → Nat := fun n => if n = "A" then 1 else 0

def scFirst : Script := ⟨"A", 10, false⟩

def scSecond : Script := ⟨"A", 11, false⟩

/-- Witness for C3: duplicate registration of name "A" (instances 10
and 11) in context "m1", with `GetScriptId` assigning "A" the id 1. -/
theorem c3_witness :
    sC3ex.fatal = false ∧ sC3ex.currentContext ≠ "" ∧
    scFirst.name = scSecond.name ∧ gidC3 scSecond.name ≠ 0 ∧
    getScriptById sC3ex 1 = some scFirst ∧
    ((addScript gidC3 false scSecond sC3ex).scripts = sC3ex.scripts ∧
      (addScript gidC3 false scSecond sC3ex).queue = sC3ex.queue ++ [scSecond] ∧
      (addScript gidC3 false scSecond sC3ex).fatal = false ∧
      getScriptById (addScript gidC3 false scSecond sC3ex) 1 = some scFirst ∧
      (addScript gidC3 false scSecond sC3ex).log =
        sC3ex.log ++ [Event.errorDuplicate scSecond.name]) :=
  ⟨rfl, by decide, rfl, by decide, by decide,
    c3_confirmed gidC3 scFirst scSecond 1 sC3ex rfl (by decide) rfl (by decide) (by decide)⟩

/-! ### The destroy/re-create passes over the empty id set -/

theorem guidsToReset_nil (m : List Entity) : guidsToReset [] m = [] := by
  simp [guidsToReset]

theorem destroyEnts_nil (m : List Entity) : destroyEnts [] m = m := by
  simp [destroyEnts]

theorem destroyedOf_nil (m : List Entity) : destroyedOf [] m = [] := by
  simp [destroyedOf]

theorem destroyMapsGo_nil (ms : List (List Entity)) (d : List Nat) :
    destroyMapsGo [] ms d = (ms, d) := by
  induction ms generalizing d with
  | nil => rfl
  | cons m ms ih =>
    simp [destroyMapsGo, guidsToReset_nil, resetPass, destroyEnts_nil, destroyedOf_nil, ih]

theorem destroyScriptIdsFromSet_nil (w : WorldSt) : destroyScriptIdsFromSet [] w = w := by
  simp [destroyScriptIdsFromSet, destroyMapsGo_nil]

theorem createPass_nil (es : List Entity) (t : Nat) : createPass [] es t = (es, t, []) := by
  induction es generalizing t with
  | nil => rfl
  | cons e es ih => simp [createPass, ih]

theorem recreateMapsGo_nil (ms : List (List Entity)) (t : Nat) :
    recreateMapsGo [] ms t = (ms, t) := by
  induction ms generalizing t with
  | nil => rfl
  | cons m ms ih => simp [recreateMapsGo, createPass_nil, resetNewPass, ih]

theorem recreateScriptIdsFromSet_nil (w : WorldSt) : recreateScriptIdsFromSet [] w = w := by
  simp [recreateScriptIdsFromSet, recreateMapsGo_nil]

theorem unionIds_nil : unionIds [] [] = [] := rfl

/-! ### C6: the recently-added ids join the removal set on a live swap -/

/-- C6: on `SwapContext(initialize = false)` for the creature/
game-object category there is a removal set `r` consisting exactly of
the accumulated removed ids together with the recently added ids; the
world goes through the destroy pass and then the re-create pass over
`r`; the accumulated set and the recently-added set are cleared.  On
`SwapContext(initialize = true)` the world is untouched and the
recently-added set is still cleared. -/
theorem c6_confirmed (s : GlobalState) (h : s.fatal = false) :
    (∃ r : List Nat,
      (∀ id, id ∈ r ↔ id ∈ s.idsRemoved ∨ id ∈ s.recentlyAdded) ∧
      (creatureSwapContext false s).world =
        recreateScriptIdsFromSet r (destroyScriptIdsFromSet r s.world) ∧
      (creatureSwapContext false s).idsRemoved = [] ∧
      (creatureSwapContext false s).recentlyAdded = []) ∧
    ((creatureSwapContext true s).world = s.world ∧
      (creatureSwapContext true s).recentlyAdded = []) := by
  refine ⟨⟨unionIds s.idsRemoved s.recentlyAdded, fun id => mem_unionIds, ?_, ?_, ?_⟩, ?_, ?_⟩ <;>
    simp [creatureSwapContext, beforeSwapContextCG, h]

/-- A creature registry state with one accumulated removed id (5), one
recently added id (9), and a one-entity world. -/
def sC6ex : GlobalState :=
  { initState with
    idsRemoved := [5]
    recentlyAdded := [9]
    world :=
      { maps := [[{ guid := 1, scriptId := 5, alive := true, charmed := false,
                    evadeState := false, aiReady := true, events := 0, ai := some ⟨0, 5⟩ }]]
        nextTag := 1
        destroyedTags := [] } }

/-- Witness for C6 at the concrete state `sC6ex`. -/
theorem c6_witness :
    sC6ex.fatal = false ∧
    ((∃ r : List Nat,
        (∀ id, id ∈ r ↔ id ∈ sC6ex.idsRemoved ∨ id ∈ sC6ex.recentlyAdded) ∧
        (creatureSwapContext false sC6ex).world =
          recreateScriptIdsFromSet r (destroyScriptIdsFromSet r sC6ex.world) ∧
        (creatureSwapContext false sC6ex).idsRemoved = [] ∧
        (creatureSwapContext false sC6ex).recentlyAdded = []) ∧
      ((creatureSwapContext true sC6ex).world = sC6ex.world ∧
        (creatureSwapContext true sC6ex).recentlyAdded = [])) :=
  ⟨rfl, c6_confirmed sC6ex rfl⟩

/-! ### C7: swap idempotence on an empty delta -/

theorem flagSwapContext_false_idem (c : FlagCat) :
    flagSwapContext false (flagSwapContext false c) = flagSwapContext false c := by
  obtain ⟨k, sw, scr, ids, rec⟩ := c
  cases k <;> cases sw <;> simp [flagSwapContext]

/-- The observable registry state named by C7: everything except the
event log. -/
def regObs (s : GlobalState) :=
  (s.currentContext, s.fatal, s.dbLoaded, s.scripts, s.idsOfContexts, s.recentlyAdded,
    s.alScripts, s.idsRemoved, s.world, s.flagCats, s.nameToContext, s.queue)

/-- C7: a second `SwapContext(false)` with no intervening `AddScript`
or `ReleaseContext` changes nothing observable: script store, context
index, recently-added set, the removed-id accumulator, the world, the
per-hook flags, the name map and the delayed-delete queue are all
unchanged. -/
theorem c7_confirmed (s : GlobalState) :
    regObs (compositumSwapContext false (compositumSwapContext false s)) =
      regObs (compositumSwapContext false s) := by
  by_cases h : s.fatal
  · have h1 : compositumSwapContext false s = s := by
      simp [compositumSwapContext, h]
    rw [h1, h1]
  · simp only [Bool.not_eq_true] at h
    simp [regObs, compositumSwapContext, creatureSwapContext, beforeSwapContextCG, h,
      unionIds_nil, destroyScriptIdsFromSet_nil, recreateScriptIdsFromSet_nil,
      List.map_map, Function.comp, flagSwapContext_false_idem]

/-! ### C4: deferred deletion drains only at the compositum swap -/

/-- C4: a registration call never destroys anything (its log extension
holds no destruction event and the queue only grows), while the
compositum's `SwapContext` empties the queue and its trace destroys the
queued objects only after every registered category's `SwapContext`
event. -/
theorem c4_confirmed (getId : String → Nat) (debug : Bool) (sc : Script) (b : Bool)
    (s t : GlobalState) (h : t.fatal = false) :
    (∃ ext, (addScript getId debug sc s).log = s.log ++ ext ∧
      (∀ e ∈ ext, ∀ i, e ≠ Event.destroyed i) ∧
      ∃ q, (addScript getId debug sc s).queue = s.queue ++ q) ∧
    ((compositumSwapContext b t).queue = [] ∧
      ∃ pre, (compositumSwapContext b t).log =
          t.log ++ pre ++ t.queue.map (fun x => Event.destroyed x.iid) ∧
        (∀ e ∈ pre, ∀ i, e ≠ Event.destroyed i) ∧
        Event.categorySwap 0 ∈ pre ∧
        (∀ k, k < t.flagCats.length → Event.categorySwap (k + 1) ∈ pre)) := by
  constructor
  · by_cases h1 : s.fatal
    · exact ⟨[], by simp [addScript, h1], by simp, [], by simp [addScript, h1]⟩
    · simp only [Bool.not_eq_true] at h1
      by_cases h2 : s.currentContext = ""
      · exact ⟨[], by simp [addScript, h1, h2], by simp, [], by simp [addScript, h1, h2]⟩
      · by_cases h3 : getId sc.name = 0
        · exact ⟨[Event.errorNoId sc.name], by simp [addScript, h1, h2, h3], by simp,
            [sc], by simp [addScript, h1, h2, h3]⟩
        · by_cases h4 : s.scripts.any (fun p => decide (p.2.name = sc.name))
          · by_cases h5 : debug
            · exact ⟨[], by simp [addScript, h1, h2, h3, h4, h5], by simp,
                [], by simp [addScript, h1, h2, h3, h4, h5]⟩
            · exact ⟨[Event.errorDuplicate sc.name], by simp [addScript, h1, h2, h3, h4, h5],
                by simp, [sc], by simp [addScript, h1, h2, h3, h4, h5]⟩
          · by_cases h6 : sc.afterLoadDB && !s.dbLoaded
            · exact ⟨[], by simp [addScript, h1, h2, h3, h4, h6], by simp,
                [], by simp [addScript, h1, h2, h3, h4, h6]⟩
            · by_cases h7 : sc.name ∈ keysOf s.nameToContext
              · exact ⟨[Event.registered (getId sc.name) sc.iid],
                  by simp [addScript, setScriptNameInContext, h1, h2, h3, h4, h6, h7], by simp,
                  [], by simp [addScript, setScriptNameInContext, h1, h2, h3, h4, h6, h7]⟩
              · exact ⟨[Event.registered (getId sc.name) sc.iid],
                  by simp [addScript, setScriptNameInContext, h1, h2, h3, h4, h6, h7], by simp,
                  [], by simp [addScript, setScriptNameInContext, h1, h2, h3, h4, h6, h7]⟩
  · refine ⟨by simp [compositumSwapContext, creatureSwapContext, h], ?_⟩
    refine ⟨Event.categorySwap 0 ::
      (List.range t.flagCats.length).map (fun i => Event.categorySwap (i + 1)), ?_, ?_, ?_, ?_⟩
    · cases b <;>
        simp [compositumSwapContext, creatureSwapContext, beforeSwapContextCG, h]
    · intro e he i
      rcases List.mem_cons.mp he with rfl | hmem
      · simp
      · obtain ⟨j, _, rfl⟩ := List.mem_map.mp hmem
        simp
    · exact List.mem_cons_self _ _
    · intro k hk
      exact List.mem_cons_of_mem _ (List.mem_map.mpr ⟨k, List.mem_range.mpr hk, rfl⟩)

/-- A compositum state with a queued rejected instance and one other
registered category. -/
def tC4ex : GlobalState :=
  { initState with
    queue := [⟨"A", 11, false⟩]
    flagCats := [{ kind := .outdoorPvP, swapped := false, scripts := [],
                   idsOfContexts := [], recentlyAdded := [] }] }

/-- Witness for C4, applying the theorem at concrete inputs. -/
theorem c4_witness :
    tC4ex.fatal = false ∧
    ((∃ ext, (addScript gidC3 false scSecond sC3ex).log = sC3ex.log ++ ext ∧
        (∀ e ∈ ext, ∀ i, e ≠ Event.destroyed i) ∧
        ∃ q, (addScript gidC3 false scSecond sC3ex).queue = sC3ex.queue ++ q) ∧
      ((compositumSwapContext false tC4ex).queue = [] ∧
        ∃ pre, (compositumSwapContext false tC4ex).log =
            tC4ex.log ++ pre ++ tC4ex.queue.map (fun x => Event.destroyed x.iid) ∧
          (∀ e ∈ pre, ∀ i, e ≠ Event.destroyed i) ∧
          Event.categorySwap 0 ∈ pre ∧
          (∀ k, k < tC4ex.flagCats.length → Event.categorySwap (k + 1) ∈ pre))) :=
  ⟨rfl, c4_confirmed gidC3 false scSecond false sC3ex tC4ex rfl⟩

/-! ### C10: compositum release order and name-map pruning -/

theorem keys_nodup_unique {α β : Type} [DecidableEq α] [DecidableEq β]
    {l : List (α × β)} (h : (keysOf l).Nodup) {a : α} {b b' : β}
    (h1 : (a, b) ∈ l) (h2 : (a, b') ∈ l) : b = b' := by
  have := List.inj_on_of_nodup_map (f := Prod.fst) (by simpa [keysOf] using h) h1 h2 rfl
  exact congrArg Prod.snd this

/-- C10: the compositum's `ReleaseContext(ctx)` calls every registered
category's release before any name-map entry is erased (in the trace,
the per-category events strictly precede every `erasedName` event),
leaves no name mapped to `ctx`, and afterwards any name that had been
registered under `ctx` passes the `SetScriptNameInContext` uniqueness
assertion when re-registered under a new context. -/
theorem c10_confirmed (s : GlobalState) (ctx newCtx : String) (h : s.fatal = false)
    (hnodup : (keysOf s.nameToContext).Nodup) :
    (∀ p ∈ (compositumReleaseContext ctx s).nameToContext, p.2 ≠ ctx) ∧
    (∃ rel, (compositumReleaseContext ctx s).log =
        s.log ++ rel ++
          (s.nameToContext.filter (fun p => decide (p.2 = ctx))).map (fun p => Event.erasedName p.1) ∧
      (∀ e ∈ rel, ∀ n, e ≠ Event.erasedName n) ∧
      Event.categoryRelease 0 ∈ rel ∧
      (∀ k, k < s.flagCats.length → Event.categoryRelease (k + 1) ∈ rel)) ∧
    (∀ name, (name, ctx) ∈ s.nameToContext →
      (setScriptNameInContext name newCtx (compositumReleaseContext ctx s)).fatal = false ∧
      (setScriptNameInContext name newCtx (compositumReleaseContext ctx s)).nameToContext =
        (compositumReleaseContext ctx s).nameToContext ++ [(name, newCtx)]) := by
  have hn2c : (compositumReleaseContext ctx s).nameToContext =
      s.nameToContext.filter (fun p => decide (p.2 ≠ ctx)) := by
    simp [compositumReleaseContext, creatureReleaseContext, beforeReleaseContextCG, h]
  have hfatal' : (compositumReleaseContext ctx s).fatal = false := by
    simp [compositumReleaseContext, creatureReleaseContext, beforeReleaseContextCG, h]
  refine ⟨?_, ?_, ?_⟩
  · intro p hp
    rw [hn2c] at hp
    simpa using List.of_mem_filter hp
  · refine ⟨Event.categoryRelease 0 ::
      (List.range s.flagCats.length).map (fun i => Event.categoryRelease (i + 1)), ?_, ?_, ?_, ?_⟩
    · simp [compositumReleaseContext, creatureReleaseContext, beforeReleaseContextCG, h]
    · intro e he n
      rcases List.mem_cons.mp he with rfl | hmem
      · simp
      · obtain ⟨j, _, rfl⟩ := List.mem_map.mp hmem
        simp
    · exact List.mem_cons_self _ _
    · intro k hk
      exact List.mem_cons_of_mem _ (List.mem_map.mpr ⟨k, List.mem_range.mpr hk, rfl⟩)
  · intro name hname
    have hnotin : name ∉ keysOf (compositumReleaseContext ctx s).nameToContext := by
      rw [hn2c]
      intro hmem
      obtain ⟨p, hp, hfst⟩ := List.mem_map.mp hmem
      have hpl := List.of_mem_filter hp
      simp only [decide_eq_true_eq] at hpl
      have hporig := List.mem_of_mem_filter hp
      have : p.2 = ctx := by
        have hpeq : (name, p.2) ∈ s.nameToContext := by
          rwa [show (name, p.2) = p from Prod.ext (by simp [hfst]) rfl]
        exact (keys_nodup_unique hnodup hpeq hname).symm ▸ rfl
      exact hpl this
    constructor
    · simp [setScriptNameInContext, hnotin, hfatal']
    · simp [setScriptNameInContext, hnotin]

/-- A compositum state whose name map holds names under contexts "m1"
and "keep". -/
def sC10ex : GlobalState :=
  { initState with
    nameToContext := [("A", "m1"), ("B", "keep")]
    flagCats := [{ kind := .spellLoader, swapped := false, scripts := [],
                   idsOfContexts := [], recentlyAdded := [] }] }

/-- Witness for C10 at the concrete state `sC10ex`. -/
theorem c10_witness :
    sC10ex.fatal = false ∧ (keysOf sC10ex.nameToContext).Nodup ∧
    ((∀ p ∈ (compositumReleaseContext "m1" sC10ex).nameToContext, p.2 ≠ "m1") ∧
      (∃ rel, (compositumReleaseContext "m1" sC10ex).log =
          sC10ex.log ++ rel ++
            (sC10ex.nameToContext.filter (fun p => decide (p.2 = "m1"))).map
              (fun p => Event.erasedName p.1) ∧
        (∀ e ∈ rel, ∀ n, e ≠ Event.erasedName n) ∧
        Event.categoryRelease 0 ∈ rel ∧
        (∀ k, k < sC10ex.flagCats.length → Event.categoryRelease (k + 1) ∈ rel)) ∧
      (∀ name, (name, "m1") ∈ sC10ex.nameToContext →
        (setScriptNameInContext name "m2" (compositumReleaseContext "m1" sC10ex)).fatal = false ∧
        (setScriptNameInContext name "m2" (compositumReleaseContext "m1" sC10ex)).nameToContext =
          (compositumReleaseContext "m1" sC10ex).nameToContext ++ [(name, "m2")])) :=
  ⟨rfl, by decide, c10_confirmed sC10ex "m1" "m2" rfl (by decide)⟩

/-! ### C9: the after-database-load buffer is flushed once, in order -/

/-- `AddScript` on the clean registration path: fresh name, assigned
id, identifier table loaded (or behavior not flagged), no conflicts. -/
theorem addScript_success (getId : String → Nat) (debug : Bool) (sc : Script)
    (st : GlobalState)
    (h1 : st.fatal = false) (h2 : st.currentContext ≠ "") (h3 : getId sc.name ≠ 0)
    (h4 : ∀ p ∈ st.scripts, p.2.name ≠ sc.name)
    (h5 : (sc.afterLoadDB && !st.dbLoaded) = false)
    (h6 : getId sc.name ∉ keysOf st.scripts)
    (h7 : sc.name ∉ keysOf st.nameToContext) :
    addScript getId debug sc st =
      { st with
        scripts := st.scripts ++ [(getId sc.name, sc)]
        idsOfContexts := st.idsOfContexts ++ [(st.currentContext, getId sc.name)]
        recentlyAdded :=
          if getId sc.name ∈ st.recentlyAdded then st.recentlyAdded
          else st.recentlyAdded ++ [getId sc.name]
        nameToContext := st.nameToContext ++ [(sc.name, st.currentContext)]
        log := st.log ++ [Event.registered (getId sc.name) sc.iid] } := by
  have hany : st.scripts.any (fun p => decide (p.2.name = sc.name)) = false := by
    rw [List.any_eq_false]
    intro p hp
    simp [h4 p hp]
  simp [addScript, setScriptNameInContext, insertIfAbsent, h1, h2, h3, hany, h5, h6, h7]

/-- The flush loop of `AddALScripts`: with the identifier table loaded
and every buffered behavior clean, each buffered behavior is registered
through `AddScript` exactly once and in order. -/
theorem addALScripts_go (getId : String → Nat) (debug : Bool) :
    ∀ (buf : List Script) (st : GlobalState),
    st.fatal = false → st.currentContext ≠ "" → st.dbLoaded = true →
    (∀ sc ∈ buf, getId sc.name ≠ 0) →
    (∀ sc ∈ buf, ∀ p ∈ st.scripts, p.2.name ≠ sc.name) →
    (∀ sc ∈ buf, sc.name ∉ keysOf st.nameToContext) →
    (∀ sc ∈ buf, getId sc.name ∉ keysOf st.scripts) →
    (buf.map (·.name)).Nodup →
    (buf.map (fun sc => getId sc.name)).Nodup →
    (buf.foldl (fun acc sc => addScript getId debug sc acc) st).log =
        st.log ++ buf.map (fun sc => Event.registered (getId sc.name) sc.iid) ∧
    (buf.foldl (fun acc sc => addScript getId debug sc acc) st).scripts =
        st.scripts ++ buf.map (fun sc => (getId sc.name, sc)) ∧
    (buf.foldl (fun acc sc => addScript getId debug sc acc) st).fatal = false ∧
    (buf.foldl (fun acc sc => addScript getId debug sc acc) st).alScripts = st.alScripts := by
  intro buf
  induction buf with
  | nil =>
    intro st h1 _ _ _ _ _ _ _ _
    simp [h1]
  | cons sc buf ih =>
    intro st h1 h2 h3 hid hfresh hn2c hidf hnames hids
    have hstep := addScript_success getId debug sc st h1 h2
      (hid sc (List.mem_cons_self _ _))
      (hfresh sc (List.mem_cons_self _ _))
      (by rw [h3]; simp)
      (hidf sc (List.mem_cons_self _ _))
      (hn2c sc (List.mem_cons_self _ _))
    have hnames' := hnames
    simp only [List.map_cons, List.nodup_cons] at hnames' hids
    obtain ⟨hnhead, hntail⟩ := hnames'
    obtain ⟨hihead, hitail⟩ := hids
    have hmain := ih (addScript getId debug sc st)
      (by rw [hstep]; exact h1) (by rw [hstep]; exact h2) (by rw [hstep]; exact h3)
      (fun x hx => hid x (List.mem_cons_of_mem _ hx))
      (by
        intro x hx p hp
        rw [hstep] at hp
        simp only [List.mem_append, List.mem_singleton] at hp
        rcases hp with hp | hp
        · exact hfresh x (List.mem_cons_of_mem _ hx) p hp
        · subst hp
          simp only
          intro hcontra
          exact hnhead (by rw [hcontra]; exact List.mem_map.mpr ⟨x, hx, rfl⟩))
      (by
        intro x hx
        rw [hstep]
        simp only [keysOf, List.map_append, List.mem_append, List.map_cons]
        push_neg
        refine ⟨hn2c x (List.mem_cons_of_mem _ hx), ?_⟩
        simp only [List.map_nil, List.mem_singleton]
        intro hcontra
        exact hnhead (by rw [← hcontra]; exact List.mem_map.mpr ⟨x, hx, rfl⟩))
      (by
        intro x hx
        rw [hstep]
        simp only [keysOf, List.map_append, List.mem_append]
        push_neg
        refine ⟨hidf x (List.mem_cons_of_mem _ hx), ?_⟩
        simp only [List.map_cons, List.map_nil, List.mem_singleton]
        intro hcontra
        exact hihead (by rw [← hcontra]; exact List.mem_map.mpr ⟨x, hx, rfl⟩))
      hntail hitail
    simp only [List.foldl_cons]
    refine ⟨?_, ?_, hmain.2.2.1, ?_⟩
    · rw [hmain.1, hstep]
      simp
    · rw [hmain.2.1, hstep]
      simp
    · rw [hmain.2.2.2, hstep]

/-- C9: once the identifier table is available (`dbLoaded`), flushing
the after-database-load buffer registers each buffered behavior exactly
once, in original insertion order (visible in the log and in the script
store), and leaves the buffer empty. -/
theorem c9_confirmed (getId : String → Nat) (debug : Bool) (s : GlobalState)
    (hfatal : s.fatal = false) (hctx : s.currentContext ≠ "") (hdb : s.dbLoaded = true)
    (hid : ∀ sc ∈ s.alScripts, getId sc.name ≠ 0)
    (hfresh : ∀ sc ∈ s.alScripts, ∀ p ∈ s.scripts, p.2.name ≠ sc.name)
    (hn2c : ∀ sc ∈ s.alScripts, sc.name ∉ keysOf s.nameToContext)
    (hidf : ∀ sc ∈ s.alScripts, getId sc.name ∉ keysOf s.scripts)
    (hnames : (s.alScripts.map (·.name)).Nodup)
    (hids : (s.alScripts.map (fun sc => getId sc.name)).Nodup) :
    (addALScripts getId debug s).alScripts = [] ∧
    (addALScripts getId debug s).log =
      s.log ++ s.alScripts.map (fun sc => Event.registered (getId sc.name) sc.iid) ∧
    (addALScripts getId debug s).scripts =
      s.scripts ++ s.alScripts.map (fun sc => (getId sc.name, sc)) := by
  by_cases hempty : s.alScripts = []
  · simp [addALScripts, hfatal, hempty]
  · have hmain := addALScripts_go getId debug s.alScripts s hfatal hctx hdb
      hid hfresh hn2c hidf hnames hids
    have hdef : addALScripts getId debug s =
        { s.alScripts.foldl (fun acc sc => addScript getId debug sc acc) s with
          alScripts := [] } := by
      simp [addALScripts, hfatal, hempty]
    rw [hdef]
    exact ⟨rfl, hmain.1, hmain.2.1⟩

/-- A registry with behaviors "A" and "B" buffered for after-load
registration, the table loaded, and context "m1" open. -/
def sC9ex : GlobalState :=
  { initState with
    currentContext := "m1"
    dbLoaded := true
    alScripts := [⟨"A", 10, true⟩, ⟨"B", 20, true⟩] }

def gidC9 : String → Nat := fun n => if n = "A" then 1 else if n = "B" then 2 else 0

/-- Witness for C9 at the concrete state `sC9ex`. -/
theorem c9_witness :
    sC9ex.fatal = false ∧ sC9ex.currentContext ≠ "" ∧ sC9ex.dbLoaded = true ∧
    ((addALScripts gidC9 false sC9ex).alScripts = [] ∧
      (addALScripts gidC9 false sC9ex).log =
        sC9ex.log ++ sC9ex.alScripts.map (fun sc => Event.registered (gidC9 sc.name) sc.iid) ∧
      (addALScripts gidC9 false sC9ex).scripts =
        sC9ex.scripts ++ sC9ex.alScripts.map (fun sc => (gidC9 sc.name, sc))) :=
  ⟨rfl, by decide, rfl,
    c9_confirmed gidC9 false sC9ex rfl (by decide) rfl (by decide) (by decide) (by decide)
      (by decide) (by decide) (by decide)⟩

/-! ### C5: the registry bookkeeping invariant -/

/-- Number of `_ids_of_contexts` entries carrying a given id. -/
def countIds (l : List (String × Nat)) (id : Nat) : Nat :=
  (l.filter (fun q => decide (q.2 = id))).length

/-- The statement of claim C5 for a given operation sequence: in the
resulting state, every id in the script store appears in exactly one
context bucket of the index, and every recently added id is in the
script store. -/
def c5Claim (getId : String → Nat) (debug : Bool) (ops : List Op) : Prop :=
  (∀ p ∈ (runOps getId debug ops initState).scripts,
    ∃! c, (c, p.1) ∈ (runOps getId debug ops initState).idsOfContexts) ∧
  (∀ id ∈ (runOps getId debug ops initState).recentlyAdded,
    id ∈ keysOf (runOps getId debug ops initState).scripts)

/-- C5 fails on the code: after adding "A" (id 1) in context "m1" and
then releasing "m1", the recently-added set still holds 1 while the
script store is empty, because `ReleaseContext` never touches
`_recently_added_ids` (it is only cleared by `SwapContext`). -/
theorem c5_counterexample :
    ¬ c5Claim gidC3 false [Op.setCtx "m1", Op.add ⟨"A", 10, false⟩, Op.release "m1"] := by
  intro h
  have h1 := h.2 1 (by decide)
  revert h1
  decide

theorem countIds_append (l r : List (String × Nat)) (id : Nat) :
    countIds (l ++ r) id = countIds l id + countIds r id := by
  simp [countIds]

theorem countIds_pos_of_mem {l : List (String × Nat)} {c : String} {id : Nat}
    (h : (c, id) ∈ l) : 1 ≤ countIds l id := by
  have : (c, id) ∈ l.filter (fun q => decide (q.2 = id)) :=
    List.mem_filter.mpr ⟨h, by simp⟩
  calc 1 ≤ 1 := le_refl 1
    _ ≤ (l.filter (fun q => decide (q.2 = id))).length := List.length_pos.mpr (by
        intro hc
        rw [hc] at this
        exact List.not_mem_nil _ this)
    _ = countIds l id := rfl

theorem countIds_cons_le (q : String × Nat) (t : List (String × Nat)) (id : Nat) :
    countIds t id ≤ countIds (q :: t) id := by
  simp only [countIds, List.filter_cons]
  split
  · simp only [List.length_cons]
    omega
  · exact le_refl _

theorem two_le_countIds {l : List (String × Nat)} {c c' : String} {id : Nat}
    (h1 : (c, id) ∈ l) (h2 : (c', id) ∈ l) (hne : c ≠ c') : 2 ≤ countIds l id := by
  induction l with
  | nil => cases h1
  | cons q t ih =>
    by_cases hq1 : q = (c, id)
    · have h2' : (c', id) ∈ t := by
        rcases List.mem_cons.mp h2 with heq | hmem
        · exfalso
          rw [hq1] at heq
          simp only [Prod.mk.injEq] at heq
          exact hne heq.1.symm
        · exact hmem
      have hc : countIds (q :: t) id = countIds t id + 1 := by
        simp [countIds, hq1, List.filter_cons]
      rw [hc]
      have := countIds_pos_of_mem h2'
      omega
    · by_cases hq2 : q = (c', id)
      · have h1' : (c, id) ∈ t := by
          rcases List.mem_cons.mp h1 with heq | hmem
          · exfalso
            rw [hq2] at heq
            simp only [Prod.mk.injEq] at heq
            exact hne heq.1
          · exact hmem
        have hc : countIds (q :: t) id = countIds t id + 1 := by
          simp [countIds, hq2, List.filter_cons]
        rw [hc]
        have := countIds_pos_of_mem h1'
        omega
      · have h1' : (c, id) ∈ t := by
          rcases List.mem_cons.mp h1 with heq | hmem
          · exact absurd heq.symm hq1
          · exact hmem
        have h2' : (c', id) ∈ t := by
          rcases List.mem_cons.mp h2 with heq | hmem
          · exact absurd heq.symm hq2
          · exact hmem
        have hle := ih h1' h2'
        have := countIds_cons_le q t id
        omega

theorem countIds_eq_one_unique {l : List (String × Nat)} {id : Nat}
    (h : countIds l id = 1) : ∃! c, (c, id) ∈ l := by
  have hpos : 0 < (l.filter (fun q => decide (q.2 = id))).length := by
    rw [show (l.filter (fun q => decide (q.2 = id))).length = countIds l id from rfl, h]
    omega
  obtain ⟨q, hq⟩ := List.exists_mem_of_length_pos hpos
  have hql := List.mem_of_mem_filter hq
  have hqid : q.2 = id := by simpa using List.of_mem_filter hq
  refine ⟨q.1, ?_, ?_⟩
  · show (q.1, id) ∈ l
    rwa [show (q.1, id) = q from Prod.ext rfl (by simp [hqid])]
  · intro c hc
    by_contra hne
    have := two_le_countIds hc (show (q.1, id) ∈ l by
      rwa [show (q.1, id) = q from Prod.ext rfl (by simp [hqid])]) hne
    omega

theorem countIds_singleton (c : String) (j i : Nat) :
    countIds [(c, j)] i = if j = i then 1 else 0 := by
  by_cases h : j = i <;> simp [countIds, h]

theorem exists_of_countIds_pos {l : List (String × Nat)} {id : Nat}
    (h : 1 ≤ countIds l id) : ∃ c, (c, id) ∈ l := by
  have hpos : 0 < (l.filter (fun q => decide (q.2 = id))).length := h
  obtain ⟨q, hq⟩ := List.exists_mem_of_length_pos hpos
  have hql := List.mem_of_mem_filter hq
  have hqid : q.2 = id := by simpa using List.of_mem_filter hq
  exact ⟨q.1, by rwa [show (q.1, id) = q from Prod.ext rfl (by simp [hqid])]⟩

theorem creatureReleaseContext_fields (s : GlobalState) (ctx : String) (h : s.fatal = false) :
    (creatureReleaseContext ctx s).idsOfContexts = s.idsOfContexts ∧
    (creatureReleaseContext ctx s).nameToContext = s.nameToContext ∧
    (creatureReleaseContext ctx s).fatal = false ∧
    (creatureReleaseContext ctx s).recentlyAdded = s.recentlyAdded ∧
    (creatureReleaseContext ctx s).scripts =
      s.scripts.filter (fun p => decide (p.1 ∉ bucketIds s.idsOfContexts ctx)) := by
  refine ⟨?_, ?_, ?_, ?_, ?_⟩ <;> simp [creatureReleaseContext, beforeReleaseContextCG, h]

theorem creatureSwapContext_fields (s : GlobalState) (b : Bool) (h : s.fatal = false) :
    (creatureSwapContext b s).scripts = s.scripts ∧
    (creatureSwapContext b s).idsOfContexts = s.idsOfContexts ∧
    (creatureSwapContext b s).nameToContext = s.nameToContext ∧
    (creatureSwapContext b s).fatal = false ∧
    (creatureSwapContext b s).recentlyAdded = [] := by
  refine ⟨?_, ?_, ?_, ?_, ?_⟩ <;> cases b <;>
    simp [creatureSwapContext, beforeSwapContextCG, h]

/-- The bookkeeping invariant of the identifier-bound registry, tied
to the external name-to-id assignment `getId`: every stored script is
keyed by its name's nonzero id and its name is locked in the
compositum's name map; every index entry's id comes from a locked
name; no id has more than one index entry; and every stored id has
exactly one index entry. -/
def RegInv (getId : String → Nat) (s : GlobalState) : Prop :=
  (∀ p ∈ s.scripts, getId p.2.name = p.1 ∧ p.1 ≠ 0 ∧ p.2.name ∈ keysOf s.nameToContext) ∧
  (∀ q ∈ s.idsOfContexts, ∃ n, getId n = q.2 ∧ n ∈ keysOf s.nameToContext) ∧
  (∀ id, countIds s.idsOfContexts id ≤ 1) ∧
  (∀ p ∈ s.scripts, countIds s.idsOfContexts p.1 = 1)

/-- Either the process has tripped a fatal assertion, or the
bookkeeping invariant holds. -/
def Inv (getId : String → Nat) (s : GlobalState) : Prop :=
  s.fatal = true ∨ RegInv getId s

theorem inv_applyOp (getId : String → Nat) (debug : Bool)
    (hinj : ∀ a b, getId a ≠ 0 → getId a = getId b → a = b)
    (op : Op) (s : GlobalState) (h : Inv getId s) :
    Inv getId (applyOp getId debug op s) := by
  by_cases hf : s.fatal = true
  · left
    cases op with
    | setCtx c => simpa [applyOp] using hf
    | add sc => simp [applyOp, addScript, hf]
    | release c => simp [applyOp, creatureReleaseContext, hf]
    | swap b => simp [applyOp, creatureSwapContext, hf]
  · have hfe : s.fatal = false := by simpa using hf
    have hreg : RegInv getId s := h.resolve_left hf
    obtain ⟨j1, j3, j4, j5⟩ := hreg
    cases op with
    | setCtx c =>
      right
      exact ⟨j1, j3, j4, j5⟩
    | release c =>
      right
      obtain ⟨hids, hn2c, hfat, _, hscr⟩ := creatureReleaseContext_fields s c hfe
      simp only [applyOp]
      rw [RegInv, hids, hn2c, hscr]
      refine ⟨?_, j3, j4, ?_⟩
      · intro p hp
        exact j1 p (List.mem_of_mem_filter hp)
      · intro p hp
        exact j5 p (List.mem_of_mem_filter hp)
    | swap b =>
      right
      obtain ⟨hscr, hids, hn2c, hfat, _⟩ := creatureSwapContext_fields s b hfe
      simp only [applyOp]
      rw [RegInv, hids, hn2c, hscr]
      exact ⟨j1, j3, j4, j5⟩
    | add sc =>
      simp only [applyOp]
      by_cases b1 : s.currentContext = ""
      · left
        simp [addScript, hfe, b1]
      · by_cases b2 : getId sc.name = 0
        · right
          have heq : addScript getId debug sc s =
              { s with queue := s.queue ++ [sc], log := s.log ++ [Event.errorNoId sc.name] } := by
            simp [addScript, hfe, b1, b2]
          rw [heq]
          exact ⟨j1, j3, j4, j5⟩
        · by_cases b3 : s.scripts.any (fun p => decide (p.2.name = sc.name)) = true
          · by_cases b4 : debug
            · left
              simp [addScript, hfe, b1, b2, b3, b4]
            · right
              have heq : addScript getId debug sc s =
                  { s with queue := s.queue ++ [sc],
                           log := s.log ++ [Event.errorDuplicate sc.name] } := by
                simp [addScript, hfe, b1, b2, b3, b4]
              rw [heq]
              exact ⟨j1, j3, j4, j5⟩
          · by_cases b5 : (sc.afterLoadDB && !s.dbLoaded) = true
            · right
              have heq : addScript getId debug sc s =
                  { s with alScripts := s.alScripts ++ [sc] } := by
                simp only [addScript, hfe, b1, b2, b3, b5]
                simp
              rw [heq]
              exact ⟨j1, j3, j4, j5⟩
            · -- the clean registration path
              have hfreshname : ∀ p ∈ s.scripts, p.2.name ≠ sc.name := by
                intro p hp
                have := (List.any_eq_false (p := fun p => decide (p.2.name = sc.name))).mp
                  (by simpa using b3) p hp
                simpa using this
              by_cases b6 : sc.name ∈ keysOf s.nameToContext
              · left
                have hany : s.scripts.any (fun p => decide (p.2.name = sc.name)) = false := by
                  simpa using b3
                simp [addScript, setScriptNameInContext, hfe, b1, b2, hany,
                  (by simpa using b5 : (sc.afterLoadDB && !s.dbLoaded) = false), b6]
              · -- no conflicts anywhere: the state is extended coherently
                have hidfresh : getId sc.name ∉ keysOf s.scripts := by
                  intro hmem
                  obtain ⟨p, hp, hpk⟩ := List.mem_map.mp hmem
                  obtain ⟨hp1, hp2, _⟩ := j1 p hp
                  have : p.2.name = sc.name := by
                    refine hinj p.2.name sc.name ?_ ?_
                    · rw [hp1, hpk]
                      exact b2
                    · rw [hp1, hpk]
                  exact hfreshname p hp this
                have hcount0 : countIds s.idsOfContexts (getId sc.name) = 0 := by
                  by_contra hc
                  have hpos : 1 ≤ countIds s.idsOfContexts (getId sc.name) := by omega
                  obtain ⟨c, hcmem⟩ := exists_of_countIds_pos hpos
                  obtain ⟨n, hn1, hn2⟩ := j3 (c, getId sc.name) hcmem
                  have : sc.name = n := hinj sc.name n b2 (by rw [hn1])
                  exact b6 (this ▸ hn2)
                have heq := addScript_success getId debug sc s hfe b1 b2 hfreshname
                  (by simpa using b5) hidfresh b6
                rw [heq]
                right
                refine ⟨?_, ?_, ?_, ?_⟩
                · intro p hp
                  simp only [List.mem_append, List.mem_singleton] at hp
                  rcases hp with hp | hp
                  · obtain ⟨hp1, hp2, hp3⟩ := j1 p hp
                    exact ⟨hp1, hp2, by
                      simp only [keysOf, List.map_append, List.mem_append]
                      exact Or.inl hp3⟩
                  · subst hp
                    refine ⟨rfl, b2, ?_⟩
                    simp [keysOf]
                · intro q hq
                  simp only [List.mem_append, List.mem_singleton] at hq
                  rcases hq with hq | hq
                  · obtain ⟨n, hn1, hn2⟩ := j3 q hq
                    exact ⟨n, hn1, by
                      simp only [keysOf, List.map_append, List.mem_append]
                      exact Or.inl hn2⟩
                  · subst hq
                    refine ⟨sc.name, rfl, ?_⟩
                    simp [keysOf]
                · intro id
                  rw [countIds_append, countIds_singleton]
                  by_cases hid : getId sc.name = id
                  · rw [← hid, hcount0]
                    simp
                  · have := j4 id
                    simp only [hid, if_false]
                    omega
                · intro p hp
                  simp only [List.mem_append, List.mem_singleton] at hp
                  rcases hp with hp | hp
                  · have hone := j5 p hp
                    rw [countIds_append, countIds_singleton]
                    have hpne : getId sc.name ≠ p.1 := by
                      intro hcontra
                      exact hidfresh (hcontra ▸ List.mem_map.mpr ⟨p, hp, rfl⟩)
                    simp only [hpne, if_false]
                    omega
                  · subst hp
                    rw [countIds_append, countIds_singleton]
                    simp only
                    rw [hcount0]
                    simp

theorem inv_runOps (getId : String → Nat) (debug : Bool)
    (hinj : ∀ a b, getId a ≠ 0 → getId a = getId b → a = b)
    (ops : List Op) (s : GlobalState) (h : Inv getId s) :
    Inv getId (runOps getId debug ops s) := by
  induction ops generalizing s with
  | nil => exact h
  | cons op ops ih =>
    exact ih (applyOp getId debug op s) (inv_applyOp getId debug hinj op s h)

theorem inv_initState (getId : String → Nat) : Inv getId initState := by
  right
  refine ⟨?_, ?_, ?_, ?_⟩
  · intro x hx
    simp [initState] at hx
  · intro x hx
    simp [initState] at hx
  · intro id
    simp [initState, countIds]
  · intro x hx
    simp [initState] at hx

/-- The recently-added part of the claimed invariant: every recently
added id is present in the script store. -/
def RecInv (s : GlobalState) : Prop :=
  ∀ id ∈ s.recentlyAdded, id ∈ keysOf s.scripts

theorem mem_keysOf_insertIfAbsent_self (l : List (Nat × Script)) (id : Nat) (sc : Script) :
    id ∈ keysOf (insertIfAbsent l id sc) := by
  unfold insertIfAbsent
  by_cases h : id ∈ keysOf l
  · rw [if_pos h]
    exact h
  · rw [if_neg h]
    simp [keysOf]

theorem mem_keysOf_insertIfAbsent_of_mem {l : List (Nat × Script)} {x : Nat}
    (id : Nat) (sc : Script) (h : x ∈ keysOf l) :
    x ∈ keysOf (insertIfAbsent l id sc) := by
  unfold insertIfAbsent
  by_cases hmem : id ∈ keysOf l
  · rw [if_pos hmem]
    exact h
  · rw [if_neg hmem]
    simp only [keysOf, List.map_append, List.mem_append]
    exact Or.inl h

theorem recInv_applyOp (getId : String → Nat) (debug : Bool) (op : Op)
    (hop : ∀ c, op ≠ Op.release c) (s : GlobalState)
    (h : RecInv s ∨ s.fatal = true) :
    RecInv (applyOp getId debug op s) ∨ (applyOp getId debug op s).fatal = true := by
  by_cases hf : s.fatal = true
  · right
    cases op with
    | setCtx c => simpa [applyOp] using hf
    | add sc => simp [applyOp, addScript, hf]
    | release c => exact absurd rfl (hop c)
    | swap b => simp [applyOp, creatureSwapContext, hf]
  · have hfe : s.fatal = false := by simpa using hf
    have hrec : RecInv s := h.resolve_right hf
    cases op with
    | setCtx c =>
      left
      exact hrec
    | release c => exact absurd rfl (hop c)
    | swap b =>
      left
      obtain ⟨hscr, _, _, _, hrecnil⟩ := creatureSwapContext_fields s b hfe
      intro id hid
      simp only [applyOp] at hid
      rw [hrecnil] at hid
      cases hid
    | add sc =>
      simp only [applyOp]
      by_cases b1 : s.currentContext = ""
      · right
        simp [addScript, hfe, b1]
      · by_cases b2 : getId sc.name = 0
        · left
          have heq : addScript getId debug sc s =
              { s with queue := s.queue ++ [sc], log := s.log ++ [Event.errorNoId sc.name] } := by
            simp [addScript, hfe, b1, b2]
          rw [heq]
          exact hrec
        · by_cases b3 : s.scripts.any (fun p => decide (p.2.name = sc.name)) = true
          · by_cases b4 : debug
            · right
              simp [addScript, hfe, b1, b2, b3, b4]
            · left
              have heq : addScript getId debug sc s =
                  { s with queue := s.queue ++ [sc],
                           log := s.log ++ [Event.errorDuplicate sc.name] } := by
                simp [addScript, hfe, b1, b2, b3, b4]
              rw [heq]
              exact hrec
          · by_cases b5 : (sc.afterLoadDB && !s.dbLoaded) = true
            · left
              have heq : addScript getId debug sc s =
                  { s with alScripts := s.alScripts ++ [sc] } := by
                simp only [addScript, hfe, b1, b2, b3, b5]
                simp
              rw [heq]
              exact hrec
            · by_cases b6 : sc.name ∈ keysOf s.nameToContext
              · right
                simp [addScript, setScriptNameInContext, hfe, b1, b2,
                  (by simpa using b3 : s.scripts.any (fun p => decide (p.2.name = sc.name)) = false),
                  (by simpa using b5 : (sc.afterLoadDB && !s.dbLoaded) = false), b6]
              · left
                have heq : addScript getId debug sc s =
                    { s with
                      scripts := insertIfAbsent s.scripts (getId sc.name) sc
                      idsOfContexts := s.idsOfContexts ++ [(s.currentContext, getId sc.name)]
                      recentlyAdded :=
                        if getId sc.name ∈ s.recentlyAdded then s.recentlyAdded
                        else s.recentlyAdded ++ [getId sc.name]
                      nameToContext := s.nameToContext ++ [(sc.name, s.currentContext)]
                      log := s.log ++ [Event.registered (getId sc.name) sc.iid] } := by
                  simp [addScript, setScriptNameInContext, insertIfAbsent, hfe, b1, b2,
                    (by simpa using b3 : s.scripts.any (fun p => decide (p.2.name = sc.name)) = false),
                    (by simpa using b5 : (sc.afterLoadDB && !s.dbLoaded) = false), b6]
                rw [heq]
                intro id hid
                simp only at hid
                by_cases hin : getId sc.name ∈ s.recentlyAdded
                · rw [if_pos hin] at hid
                  exact mem_keysOf_insertIfAbsent_of_mem _ _ (hrec id hid)
                · rw [if_neg hin] at hid
                  rcases List.mem_append.mp hid with hid | hid
                  · exact mem_keysOf_insertIfAbsent_of_mem _ _ (hrec id hid)
                  · rw [List.mem_singleton.mp hid]
                    exact mem_keysOf_insertIfAbsent_self _ _ _

theorem recInv_runOps (getId : String → Nat) (debug : Bool) (ops : List Op)
    (hops : ∀ op ∈ ops, ∀ c, op ≠ Op.release c) :
    ∀ s : GlobalState, RecInv s ∨ s.fatal = true →
    RecInv (runOps getId debug ops s) ∨ (runOps getId debug ops s).fatal = true := by
  induction ops with
  | nil => intro s h; exact h
  | cons op ops ih =>
    intro s h
    exact ih (fun o ho => hops o (List.mem_cons_of_mem _ ho)) _
      (recInv_applyOp getId debug op (hops op (List.mem_cons_self _ _)) s h)

/-- C5, amended: over every registry-level operation sequence from the
empty state, with an injective name-to-id assignment, as long as no
fatal assertion fired: (1) every id in the script store appears in
exactly one context bucket of `_ids_of_contexts`; (2) every recently
added id is in the script store provided no `ReleaseContext` has run
since the last `SwapContext` (or since the start) — the unamended
second half fails because `ReleaseContext` erases scripts without
touching `_recently_added_ids`. -/
theorem c5_amended (getId : String → Nat) (debug : Bool)
    (hinj : ∀ a b, getId a ≠ 0 → getId a = getId b → a = b) :
    (∀ ops : List Op, (runOps getId debug ops initState).fatal = false →
      ∀ p ∈ (runOps getId debug ops initState).scripts,
        ∃! c, (c, p.1) ∈ (runOps getId debug ops initState).idsOfContexts) ∧
    (∀ ops : List Op, (∀ op ∈ ops, ∀ c, op ≠ Op.release c) →
      (runOps getId debug ops initState).fatal = false →
      ∀ id ∈ (runOps getId debug ops initState).recentlyAdded,
        id ∈ keysOf (runOps getId debug ops initState).scripts) ∧
    (∀ (pre post : List Op) (b : Bool),
      (∀ op ∈ post, ∀ c, op ≠ Op.release c) →
      (runOps getId debug (pre ++ Op.swap b :: post) initState).fatal = false →
      ∀ id ∈ (runOps getId debug (pre ++ Op.swap b :: post) initState).recentlyAdded,
        id ∈ keysOf (runOps getId debug (pre ++ Op.swap b :: post) initState).scripts) := by
  refine ⟨?_, ?_, ?_⟩
  · intro ops hfat p hp
    rcases inv_runOps getId debug hinj ops initState (inv_initState getId) with hl | hr
    · rw [hl] at hfat
      exact Bool.noConfusion hfat
    · exact countIds_eq_one_unique (hr.2.2.2 p hp)
  · intro ops hnorel hfat
    rcases recInv_runOps getId debug ops hnorel initState
        (Or.inl (by intro id hid; simp [initState] at hid)) with h | h
    · exact h
    · rw [h] at hfat
      exact Bool.noConfusion hfat
  · intro pre post b hnorel hfat
    have hdecomp : runOps getId debug (pre ++ Op.swap b :: post) initState =
        runOps getId debug post
          (applyOp getId debug (Op.swap b) (runOps getId debug pre initState)) := by
    -- foldl over an append, then one step
      simp [runOps, List.foldl_append]
    have hmid : RecInv (applyOp getId debug (Op.swap b) (runOps getId debug pre initState)) ∨
        (applyOp getId debug (Op.swap b) (runOps getId debug pre initState)).fatal = true := by
      by_cases hmf : (runOps getId debug pre initState).fatal = true
      · right
        simp [applyOp, creatureSwapContext, hmf]
      · left
        have hfe : (runOps getId debug pre initState).fatal = false := by simpa using hmf
        obtain ⟨_, _, _, _, hrecnil⟩ :=
          creatureSwapContext_fields (runOps getId debug pre initState) b hfe
        intro id hid
        simp only [applyOp] at hid
        rw [hrecnil] at hid
        cases hid
    rcases recInv_runOps getId debug post hnorel _ hmid with h | h
    · rw [hdecomp]
      exact h
    · rw [hdecomp] at hfat
      rw [h] at hfat
      exact Bool.noConfusion hfat

/-- Witness for the amended C5, with the injective assignment
`gidC9` and debug assertions off. -/
theorem c5_amended_witness :
    (∀ a b, gidC9 a ≠ 0 → gidC9 a = gidC9 b → a = b) ∧
    ((∀ ops : List Op, (runOps gidC9 false ops initState).fatal = false →
        ∀ p ∈ (runOps gidC9 false ops initState).scripts,
          ∃! c, (c, p.1) ∈ (runOps gidC9 false ops initState).idsOfContexts) ∧
      (∀ ops : List Op, (∀ op ∈ ops, ∀ c, op ≠ Op.release c) →
        (runOps gidC9 false ops initState).fatal = false →
        ∀ id ∈ (runOps gidC9 false ops initState).recentlyAdded,
          id ∈ keysOf (runOps gidC9 false ops initState).scripts) ∧
      (∀ (pre post : List Op) (b : Bool),
        (∀ op ∈ post, ∀ c, op ≠ Op.release c) →
        (runOps gidC9 false (pre ++ Op.swap b :: post) initState).fatal = false →
        ∀ id ∈ (runOps gidC9 false (pre ++ Op.swap b :: post) initState).recentlyAdded,
          id ∈ keysOf (runOps gidC9 false (pre ++ Op.swap b :: post) initState).scripts)) :=
  ⟨by
      intro a b ha hab
      by_cases h1 : a = "A" <;> by_cases h2 : b = "A" <;>
        by_cases h3 : a = "B" <;> by_cases h4 : b = "B" <;>
        simp_all [gidC9],
    c5_amended gidC9 false (by
      intro a b ha hab
      by_cases h1 : a = "A" <;> by_cases h2 : b = "A" <;>
        by_cases h3 : a = "B" <;> by_cases h4 : b = "B" <;>
        simp_all [gidC9])⟩

/-! ### C1: no dangling attachment after release + swap -/

/-- Running the two creature/game-object hooks of a release/swap cycle:
`BeforeReleaseContext(ctx)` followed by `BeforeSwapContext(false)`. -/
def afterHooks (ctx : String) (s : GlobalState) : GlobalState :=
  beforeSwapContextCG false (beforeReleaseContextCG ctx s)

/-- The full removal set of such a cycle: the previously accumulated
removed ids, the released context's ids, and the recently added ids. -/
def removedSet (ctx : String) (s : GlobalState) : List Nat :=
  unionIds (unionIds s.idsRemoved (getScriptIDsToRemove s ctx)) s.recentlyAdded

/-- The statement of claim C1 at a given state: after the two hooks,
every entity has a freshly constructed AI (tag at least the starting
allocation counter) or none at all, and no attached AI was built from
an id in the removed set (the released context's ids). -/
def c1Claim (s : GlobalState) (ctx : String) : Prop :=
  ∀ m ∈ (afterHooks ctx s).world.maps, ∀ e ∈ m,
    (e.ai = none ∨ e.ai.all (fun a => decide (s.world.nextTag ≤ a.tag)) = true) ∧
    e.ai.all (fun a => decide (a.srcId ∉ getScriptIDsToRemove s ctx)) = true

/-- A world with a single entity attached to the untouched id 7 while
id 5 (of context "m1") is removed. -/
def sC1ex : GlobalState :=
  { initState with
    idsOfContexts := [("m1", 5)]
    world :=
      { maps := [[{ guid := 2, scriptId := 7, alive := true, charmed := false,
                    evadeState := false, aiReady := true, events := 0, ai := some ⟨0, 7⟩ }]]
        nextTag := 1
        destroyedTags := [] } }

/-- C1 fails on the code: an entity attached to an id that is not being
removed keeps its old behavior instance, which is neither freshly
constructed nor absent — the destroy/re-create passes only visit
entities whose script id is in the removal set. -/
theorem c1_counterexample : ¬ c1Claim sC1ex "m1" := by
  intro h
  have := h [⟨2, 7, true, false, false, true, 0, some ⟨0, 7⟩⟩] (by decide)
    ⟨2, 7, true, false, false, true, 0, some ⟨0, 7⟩⟩ (by decide)
  revert this
  decide

/-- Tags contributed by one entity's attachment. -/
def optTag (e : Entity) : List Nat :=
  match e.ai with
  | none => []
  | some a => [a.tag]

/-- Allocation tags of the AIs attached across one map. -/
def mapTags (m : List Entity) : List Nat :=
  m.filterMap (fun e => e.ai.map (·.tag))

/-- Allocation tags of the AIs attached across a list of maps. -/
def allMapsTags (ms : List (List Entity)) : List Nat :=
  (ms.map mapTags).flatten

/-- Allocation tags of all AIs attached in the world. -/
def allTags (w : WorldSt) : List Nat :=
  allMapsTags w.maps

/-- The fields of an entity the destroy/re-create logic dispatches on. -/
def pr (e : Entity) : Nat × Nat × Option AI :=
  (e.guid, e.scriptId, e.ai)

theorem mapTags_cons (e : Entity) (m : List Entity) :
    mapTags (e :: m) = optTag e ++ mapTags m := by
  cases h : e.ai <;> simp [mapTags, optTag, List.filterMap_cons, h]

theorem allMapsTags_cons (m : List Entity) (ms : List (List Entity)) :
    allMapsTags (m :: ms) = mapTags m ++ allMapsTags ms := by
  simp [allMapsTags]

theorem unloadResetScript_pr (e : Entity) : pr (unloadResetScript e) = pr e := rfl

theorem loadResetScript_pr (e : Entity) : pr (loadResetScript e) = pr e := by
  unfold loadResetScript
  split <;> rfl

theorem updByGuid_pr (f : Entity → Entity) (g : Nat) (m : List Entity)
    (hf : ∀ e, pr (f e) = pr e) :
    (updByGuid f g m).map pr = m.map pr := by
  induction m with
  | nil => rfl
  | cons e es ih =>
    unfold updByGuid
    split
    · simp [hf e]
    · simp [ih]

theorem resetPass_pr (gs : List Nat) (m : List Entity) :
    (resetPass gs m).map pr = m.map pr := by
  induction gs generalizing m with
  | nil => rfl
  | cons g gs ih =>
    unfold resetPass
    simp only [List.foldl_cons]
    have hstep : ∀ m' : List Entity,
        (match findByGuid m' g with
          | some _ => updByGuid unloadResetScript g m'
          | none => m').map pr = m'.map pr := by
      intro m'
      cases findByGuid m' g with
      | none => rfl
      | some e => exact updByGuid_pr _ _ _ unloadResetScript_pr
    have := ih (match findByGuid m g with
      | some _ => updByGuid unloadResetScript g m
      | none => m)
    unfold resetPass at this
    rw [this, hstep]

theorem mapTags_eq_of_pr {m1 m2 : List Entity} (h : m1.map pr = m2.map pr) :
    mapTags m1 = mapTags m2 := by
  induction m1 generalizing m2 with
  | nil =>
    cases m2 with
    | nil => rfl
    | cons e es => simp at h
  | cons e es ih =>
    cases m2 with
    | nil => simp at h
    | cons e' es' =>
      simp only [List.map_cons, List.cons.injEq] at h
      have hai : e.ai = e'.ai := congrArg (fun x => x.2.2) h.1
      rw [mapTags_cons, mapTags_cons, ih h.2]
      unfold optTag
      rw [hai]

theorem destroyedOf_eq_of_pr {m1 m2 : List Entity} (ids : List Nat)
    (h : m1.map pr = m2.map pr) :
    destroyedOf ids m1 = destroyedOf ids m2 := by
  induction m1 generalizing m2 with
  | nil =>
    cases m2 with
    | nil => rfl
    | cons e es => simp at h
  | cons e es ih =>
    cases m2 with
    | nil => simp at h
    | cons e' es' =>
      simp only [List.map_cons, List.cons.injEq] at h
      have hai : e.ai = e'.ai := congrArg (fun x => x.2.2) h.1
      have hsid : e.scriptId = e'.scriptId := congrArg (fun x => x.2.1) h.1
      simp only [destroyedOf, List.filterMap_cons]
      rw [hai, hsid]
      have := ih h.2
      simp only [destroyedOf] at this
      rw [this]

theorem mem_of_map_pr {m1 m2 : List Entity} {e' : Entity}
    (h : m1.map pr = m2.map pr) (hmem : e' ∈ m1) :
    ∃ e ∈ m2, pr e' = pr e := by
  have : pr e' ∈ m2.map pr := by
    rw [← h]
    exact List.mem_map.mpr ⟨e', hmem, rfl⟩
  obtain ⟨e, he, heq⟩ := List.mem_map.mp this
  exact ⟨e, he, heq.symm⟩

theorem perm_rotate {α : Type} (x A B : List α) :
    List.Perm (x ++ (A ++ B)) (A ++ (x ++ B)) := by
  have h1 : x ++ (A ++ B) = (x ++ A) ++ B := (List.append_assoc x A B).symm
  have h2 : List.Perm ((x ++ A) ++ B) ((A ++ x) ++ B) :=
    List.Perm.append_right B List.perm_append_comm
  have h3 : (A ++ x) ++ B = A ++ (x ++ B) := List.append_assoc A x B
  rw [h1, ← h3]
  exact h2

theorem perm_shuffle {α : Type} (A B C D : List α) :
    List.Perm ((A ++ B) ++ (C ++ D)) ((A ++ C) ++ (B ++ D)) := by
  have h1 : (A ++ B) ++ (C ++ D) = A ++ (B ++ (C ++ D)) := List.append_assoc A B _
  have h2 : List.Perm (A ++ (B ++ (C ++ D))) (A ++ (C ++ (B ++ D))) :=
    List.Perm.append_left A (perm_rotate B C D)
  have h3 : A ++ (C ++ (B ++ D)) = (A ++ C) ++ (B ++ D) := (List.append_assoc A C _).symm
  rw [h1, ← h3]
  exact h2

theorem destroyEnts_perm (ids : List Nat) (m : List Entity) :
    List.Perm (mapTags m) (mapTags (destroyEnts ids m) ++ destroyedOf ids m) := by
  induction m with
  | nil => simp [mapTags, destroyEnts, destroyedOf]
  | cons e es ih =>
    by_cases h : e.scriptId ∈ ids
    · have hd : destroyEnts ids (e :: es) =
          unloadDestroyScript e :: destroyEnts ids es := by
        simp [destroyEnts, h]
      have hdof : destroyedOf ids (e :: es) = optTag e ++ destroyedOf ids es := by
        cases hai : e.ai <;> simp [destroyedOf, List.filterMap_cons, h, hai, optTag]
      rw [mapTags_cons, hd, hdof, mapTags_cons]
      have hnone : optTag (unloadDestroyScript e) = [] := rfl
      rw [hnone, List.nil_append]
      exact List.Perm.trans (List.Perm.append_left _ ih) (perm_rotate _ _ _)
    · have hd : destroyEnts ids (e :: es) = e :: destroyEnts ids es := by
        simp [destroyEnts, h]
      have hdof : destroyedOf ids (e :: es) = destroyedOf ids es := by
        simp [destroyedOf, List.filterMap_cons, h]
      rw [mapTags_cons, hd, hdof, mapTags_cons, List.append_assoc]
      exact List.Perm.append_left _ ih

/-- One map's pass of `DestroyScriptIdsFromSet`. -/
def destroyMapOne (ids : List Nat) (m : List Entity) : List Entity :=
  destroyEnts ids (resetPass (guidsToReset ids m) m)

theorem destroyMapsGo_spec (ids : List Nat) :
    ∀ (ms : List (List Entity)) (d : List Nat),
    (destroyMapsGo ids ms d).1 = ms.map (destroyMapOne ids) ∧
    (destroyMapsGo ids ms d).2 = d ++ (ms.map (destroyedOf ids)).flatten := by
  intro ms
  induction ms with
  | nil => intro d; simp [destroyMapsGo]
  | cons m ms ih =>
    intro d
    have hdof : destroyedOf ids (resetPass (guidsToReset ids m) m) = destroyedOf ids m :=
      destroyedOf_eq_of_pr ids (resetPass_pr _ _)
    obtain ⟨ih1, ih2⟩ := ih (d ++ destroyedOf ids (resetPass (guidsToReset ids m) m))
    constructor
    · simp only [destroyMapsGo, List.map_cons]
      rw [ih1]
      rfl
    · simp only [destroyMapsGo]
      rw [ih2, hdof]
      simp [List.append_assoc]

theorem destroyScriptIdsFromSet_spec (ids : List Nat) (w : WorldSt) :
    (destroyScriptIdsFromSet ids w).maps = w.maps.map (destroyMapOne ids) ∧
    (destroyScriptIdsFromSet ids w).nextTag = w.nextTag ∧
    (destroyScriptIdsFromSet ids w).destroyedTags =
      w.destroyedTags ++ (w.maps.map (destroyedOf ids)).flatten := by
  have hp : destroyMapsGo ids w.maps w.destroyedTags =
      (w.maps.map (destroyMapOne ids),
        w.destroyedTags ++ (w.maps.map (destroyedOf ids)).flatten) := by
    obtain ⟨h1, h2⟩ := destroyMapsGo_spec ids w.maps w.destroyedTags
    rw [← h1, ← h2]
  refine ⟨?_, ?_, ?_⟩ <;> simp [destroyScriptIdsFromSet, hp]

theorem destroyMaps_perm (ids : List Nat) (ms : List (List Entity)) :
    List.Perm (allMapsTags ms)
      (allMapsTags (ms.map (destroyMapOne ids)) ++ (ms.map (destroyedOf ids)).flatten) := by
  induction ms with
  | nil => simp [allMapsTags]
  | cons m ms ih =>
    have hmt : mapTags m = mapTags (resetPass (guidsToReset ids m) m) :=
      (mapTags_eq_of_pr (resetPass_pr _ _)).symm
    have hdof : destroyedOf ids (resetPass (guidsToReset ids m) m) = destroyedOf ids m :=
      destroyedOf_eq_of_pr ids (resetPass_pr _ _)
    have hone : List.Perm (mapTags m) (mapTags (destroyMapOne ids m) ++ destroyedOf ids m) := by
      rw [hmt, ← hdof]
      exact destroyEnts_perm ids _
    rw [allMapsTags_cons, List.map_cons, allMapsTags_cons, List.map_cons,
      List.flatten_cons]
    exact List.Perm.trans (List.Perm.append hone ih) (perm_shuffle _ _ _ _)

theorem destroyMapOne_mem (ids : List Nat) (m : List Entity) :
    ∀ e' ∈ destroyMapOne ids m, ∃ e ∈ m,
      e'.guid = e.guid ∧ e'.scriptId = e.scriptId ∧
      ((e.scriptId ∈ ids ∧ e'.ai = none) ∨ (e.scriptId ∉ ids ∧ e'.ai = e.ai)) := by
  intro e' he'
  obtain ⟨e1, he1, heq⟩ := List.mem_map.mp he'
  obtain ⟨e, he, hpr⟩ := mem_of_map_pr (resetPass_pr (guidsToReset ids m) m) he1
  have hg : e1.guid = e.guid := congrArg (fun x => x.1) hpr
  have hs : e1.scriptId = e.scriptId := congrArg (fun x => x.2.1) hpr
  have ha : e1.ai = e.ai := congrArg (fun x => x.2.2) hpr
  refine ⟨e, he, ?_⟩
  by_cases h : e1.scriptId ∈ ids
  · rw [if_pos h] at heq
    subst heq
    exact ⟨hg, hs, Or.inl ⟨hs ▸ h, rfl⟩⟩
  · rw [if_neg h] at heq
    subst heq
    exact ⟨hg, hs, Or.inr ⟨hs ▸ h, ha⟩⟩

theorem tag_mem_allMapsTags {ms : List (List Entity)} {m : List Entity} {e : Entity} {a : AI}
    (hm : m ∈ ms) (he : e ∈ m) (ha : e.ai = some a) :
    a.tag ∈ allMapsTags ms := by
  apply List.mem_flatten.mpr
  exact ⟨mapTags m, List.mem_map.mpr ⟨m, hm, rfl⟩,
    List.mem_filterMap.mpr ⟨e, he, by simp [ha]⟩⟩

theorem mem_destroyedOf {ids : List Nat} {m : List Entity} {t : Nat}
    (h : t ∈ destroyedOf ids m) :
    ∃ e ∈ m, ∃ a, e.ai = some a ∧ a.tag = t ∧ e.scriptId ∈ ids := by
  obtain ⟨e, he, heq⟩ := List.mem_filterMap.mp h
  by_cases hid : e.scriptId ∈ ids
  · rw [if_pos hid] at heq
    obtain ⟨a, ha, hat⟩ := Option.map_eq_some'.mp heq
    exact ⟨e, he, a, ha, hat, hid⟩
  · rw [if_neg hid] at heq
    cases heq

theorem loadResetScript_ai (e : Entity) : (loadResetScript e).ai = e.ai :=
  congrArg (fun p => p.2.2) (loadResetScript_pr e)

theorem loadResetScript_scriptId (e : Entity) : (loadResetScript e).scriptId = e.scriptId :=
  congrArg (fun p => p.2.1) (loadResetScript_pr e)

theorem createPass_spec (ids : List Nat) :
    ∀ (m : List Entity) (t : Nat),
    t ≤ (createPass ids m t).2.1 ∧
    (∃ fr : List Nat,
      List.Perm (mapTags (createPass ids m t).1) (mapTags m ++ fr) ∧
      fr.Nodup ∧ ∀ x ∈ fr, t ≤ x ∧ x < (createPass ids m t).2.1) ∧
    (∀ e' ∈ (createPass ids m t).1,
      (e' ∈ m ∧ ¬(e'.scriptId ∈ ids ∧ e'.ai = none ∧ e'.guid ≠ 0)) ∨
      (∃ e ∈ m, ∃ k, t ≤ k ∧ e' = loadCreateScript e k ∧
        e.scriptId ∈ ids ∧ e.ai = none ∧ e.guid ≠ 0)) := by
  intro m
  induction m with
  | nil =>
    intro t
    refine ⟨le_refl t, ⟨[], ?_, List.nodup_nil, by simp⟩, by simp [createPass]⟩
    simp [createPass]
  | cons e es ih =>
    intro t
    by_cases hc : e.scriptId ∈ ids ∧ e.ai = none ∧ e.guid ≠ 0
    · obtain ⟨iht, ⟨fr', hperm, hnodup, hbound⟩, ihmem⟩ := ih (t + 1)
      rcases hrec : createPass ids es (t + 1) with ⟨es', t', gs⟩
      simp only [hrec] at iht hperm hbound ihmem
      have hcp : createPass ids (e :: es) t =
          (loadCreateScript e t :: es', t', e.guid :: gs) := by
        simp only [createPass, if_pos hc, hrec]
      have hp1 : (createPass ids (e :: es) t).1 = loadCreateScript e t :: es' := by
        rw [hcp]
      have hp2 : (createPass ids (e :: es) t).2.1 = t' := by
        rw [hcp]
      rw [hp1, hp2]
      refine ⟨by omega, ⟨t :: fr', ?_, ?_, ?_⟩, ?_⟩
      · rw [mapTags_cons, mapTags_cons]
        have hoe : optTag e = [] := by
          unfold optTag
          rw [hc.2.1]
        have hoc : optTag (loadCreateScript e t) = [t] := rfl
        rw [hoe, hoc, List.nil_append]
        exact List.Perm.trans (List.Perm.cons t hperm) List.perm_middle.symm
      · rw [List.nodup_cons]
        exact ⟨fun hmem => by have := (hbound t hmem).1; omega, hnodup⟩
      · intro x hx
        rcases List.mem_cons.mp hx with rfl | hx'
        · exact ⟨le_refl _, by omega⟩
        · have := hbound x hx'
          omega
      · intro e' he'
        rcases List.mem_cons.mp he' with rfl | he''
        · exact Or.inr ⟨e, List.mem_cons_self _ _, t, le_refl _, rfl, hc⟩
        · rcases ihmem e' he'' with ⟨hm, hnc⟩ | ⟨e2, he2, k, hk, heq, hc2⟩
          · exact Or.inl ⟨List.mem_cons_of_mem _ hm, hnc⟩
          · exact Or.inr ⟨e2, List.mem_cons_of_mem _ he2, k, by omega, heq, hc2⟩
    · obtain ⟨iht, ⟨fr', hperm, hnodup, hbound⟩, ihmem⟩ := ih t
      rcases hrec : createPass ids es t with ⟨es', t', gs⟩
      simp only [hrec] at iht hperm hbound ihmem
      have hcp : createPass ids (e :: es) t = (e :: es', t', gs) := by
        simp only [createPass, if_neg hc, hrec]
      have hp1 : (createPass ids (e :: es) t).1 = e :: es' := by
        rw [hcp]
      have hp2 : (createPass ids (e :: es) t).2.1 = t' := by
        rw [hcp]
      rw [hp1, hp2]
      refine ⟨iht, ⟨fr', ?_, hnodup, hbound⟩, ?_⟩
      · rw [mapTags_cons, mapTags_cons, List.append_assoc]
        exact List.Perm.append_left _ hperm
      · intro e' he'
        rcases List.mem_cons.mp he' with rfl | he''
        · exact Or.inl ⟨List.mem_cons_self _ _, hc⟩
        · rcases ihmem e' he'' with ⟨hm, hnc⟩ | ⟨e2, he2, k, hk, heq, hc2⟩
          · exact Or.inl ⟨List.mem_cons_of_mem _ hm, hnc⟩
          · exact Or.inr ⟨e2, List.mem_cons_of_mem _ he2, k, hk, heq, hc2⟩

theorem updByGuid_mem (f : Entity → Entity) (g : Nat) :
    ∀ (m : List Entity), ∀ e' ∈ updByGuid f g m, e' ∈ m ∨ ∃ e ∈ m, e' = f e := by
  intro m
  induction m with
  | nil => intro e' he'; cases he'
  | cons x xs ih =>
    intro e' he'
    unfold updByGuid at he'
    by_cases hx : x.guid = g
    · rw [if_pos hx] at he'
      rcases List.mem_cons.mp he' with rfl | hmem
      · exact Or.inr ⟨x, List.mem_cons_self _ _, rfl⟩
      · exact Or.inl (List.mem_cons_of_mem _ hmem)
    · rw [if_neg hx] at he'
      rcases List.mem_cons.mp he' with rfl | hmem
      · exact Or.inl (List.mem_cons_self _ _)
      · rcases ih e' hmem with h | ⟨e, he, heq⟩
        · exact Or.inl (List.mem_cons_of_mem _ h)
        · exact Or.inr ⟨e, List.mem_cons_of_mem _ he, heq⟩

theorem updByGuid_mapTags_pres (f : Entity → Entity) (g : Nat)
    (hf : ∀ x, (f x).ai = x.ai) :
    ∀ m : List Entity, mapTags (updByGuid f g m) = mapTags m := by
  intro m
  induction m with
  | nil => rfl
  | cons x xs ih =>
    unfold updByGuid
    by_cases hx : x.guid = g
    · rw [if_pos hx, mapTags_cons, mapTags_cons]
      have : optTag (f x) = optTag x := by
        unfold optTag
        rw [hf x]
      rw [this]
    · rw [if_neg hx, mapTags_cons, mapTags_cons, ih]

theorem updByGuid_create_mapTags (g k : Nat) :
    ∀ (m : List Entity) (e : Entity), findByGuid m g = some e → e.ai = none →
    List.Perm
      (mapTags (updByGuid (fun x => loadResetScript (loadCreateScript x k)) g m))
      (k :: mapTags m) := by
  intro m
  induction m with
  | nil => intro e he; cases he
  | cons x xs ih =>
    intro e hfind hnone
    by_cases hx : x.guid = g
    · have hfx : findByGuid (x :: xs) g = some x := by
        unfold findByGuid
        exact List.find?_cons_of_pos _ (by simpa using hx)
      rw [hfx] at hfind
      have hex : x = e := by injection hfind
      unfold updByGuid
      rw [if_pos hx, mapTags_cons, mapTags_cons]
      have hcx : optTag (loadResetScript (loadCreateScript x k)) = [k] := by
        unfold optTag
        rw [loadResetScript_ai]
        rfl
      have hox : optTag x = [] := by
        unfold optTag
        rw [hex, hnone]
      rw [hcx, hox, List.nil_append]
      exact List.Perm.refl _
    · have hfx : findByGuid (x :: xs) g = findByGuid xs g := by
        unfold findByGuid
        exact List.find?_cons_of_neg _ (by simpa using hx)
      rw [hfx] at hfind
      unfold updByGuid
      rw [if_neg hx, mapTags_cons, mapTags_cons]
      have hperm := ih e hfind hnone
      exact List.Perm.trans (List.Perm.append_left _ hperm) List.perm_middle

theorem resetNewPass_spec :
    ∀ (gs : List Nat) (m : List Entity) (t : Nat),
    t ≤ (resetNewPass gs m t).2 ∧
    (∃ fr : List Nat,
      List.Perm (mapTags (resetNewPass gs m t).1) (mapTags m ++ fr) ∧
      fr.Nodup ∧ ∀ x ∈ fr, t ≤ x ∧ x < (resetNewPass gs m t).2) ∧
    (∀ e' ∈ (resetNewPass gs m t).1, ∃ e ∈ m,
      e'.scriptId = e.scriptId ∧
      (e'.ai = e.ai ∨ ∃ k, t ≤ k ∧ e'.ai = some ⟨k, e.scriptId⟩)) := by
  intro gs
  induction gs with
  | nil =>
    intro m t
    refine ⟨le_refl t, ⟨[], by simp [resetNewPass], List.nodup_nil, by simp⟩, ?_⟩
    intro e' he'
    exact ⟨e', he', rfl, Or.inl rfl⟩
  | cons g gs ih =>
    intro m t
    rcases hfind : findByGuid m g with _ | e
    · have hstep : resetNewPass (g :: gs) m t = resetNewPass gs m t := by
        simp [resetNewPass, hfind]
      rw [hstep]
      exact ih m t
    · by_cases hnone : e.ai = none
      · -- re-create branch
        have hstep : resetNewPass (g :: gs) m t =
            resetNewPass gs
              (updByGuid (fun x => loadResetScript (loadCreateScript x t)) g m) (t + 1) := by
          simp [resetNewPass, hfind, hnone]
        rw [hstep]
        obtain ⟨iht, ⟨fr', hperm, hnodup, hbound⟩, ihmem⟩ :=
          ih (updByGuid (fun x => loadResetScript (loadCreateScript x t)) g m) (t + 1)
        have hup := updByGuid_create_mapTags g t m e hfind hnone
        refine ⟨by omega, ⟨t :: fr', ?_, ?_, ?_⟩, ?_⟩
        · refine List.Perm.trans hperm ?_
          refine List.Perm.trans (List.Perm.append_right fr' hup) ?_
          exact List.Perm.trans (List.Perm.refl _) List.perm_middle.symm
        · rw [List.nodup_cons]
          exact ⟨fun hmem => by have := (hbound t hmem).1; omega, hnodup⟩
        · intro x hx
          rcases List.mem_cons.mp hx with rfl | hx'
          · exact ⟨le_refl _, by omega⟩
          · have := hbound x hx'
            omega
        · intro e' he'
          obtain ⟨e1, he1, hsid, hai⟩ := ihmem e' he'
          rcases updByGuid_mem _ g _ e1 he1 with h1 | ⟨e0, he0, heq⟩
          · refine ⟨e1, h1, hsid, ?_⟩
            rcases hai with h | ⟨k, hk, hval⟩
            · exact Or.inl h
            · exact Or.inr ⟨k, by omega, hval⟩
          · subst heq
            have hsid0 : (loadResetScript (loadCreateScript e0 t)).scriptId = e0.scriptId := by
              rw [loadResetScript_scriptId]
              rfl
            have hai0 : (loadResetScript (loadCreateScript e0 t)).ai =
                some ⟨t, e0.scriptId⟩ := by
              rw [loadResetScript_ai]
              rfl
            refine ⟨e0, he0, by rw [hsid, hsid0], ?_⟩
            rcases hai with h | ⟨k, hk, hval⟩
            · rw [hai0] at h
              exact Or.inr ⟨t, le_refl _, by rw [h, ← hsid0, ← hsid]⟩
            · exact Or.inr ⟨k, by omega, by rw [hval, ← hsid0, ← hsid]⟩
      · -- reset-only branch
        have hstep : resetNewPass (g :: gs) m t =
            resetNewPass gs (updByGuid loadResetScript g m) t := by
          simp [resetNewPass, hfind, hnone]
        rw [hstep]
        obtain ⟨iht, ⟨fr', hperm, hnodup, hbound⟩, ihmem⟩ :=
          ih (updByGuid loadResetScript g m) t
        have hup := updByGuid_mapTags_pres loadResetScript g loadResetScript_ai m
        refine ⟨iht, ⟨fr', by rwa [hup] at hperm, hnodup, hbound⟩, ?_⟩
        intro e' he'
        obtain ⟨e1, he1, hsid, hai⟩ := ihmem e' he'
        rcases updByGuid_mem _ g _ e1 he1 with h1 | ⟨e0, he0, heq⟩
        · exact ⟨e1, h1, hsid, hai⟩
        · subst heq
          refine ⟨e0, he0, by rw [hsid, loadResetScript_scriptId], ?_⟩
          rcases hai with h | ⟨k, hk, hval⟩
          · rw [loadResetScript_ai] at h
            exact Or.inl h
          · exact Or.inr ⟨k, hk, by
              rw [hval, loadResetScript_scriptId]⟩

theorem nodup_append_ranges {fr1 fr2 : List Nat} {c : Nat}
    (h1 : fr1.Nodup) (h2 : fr2.Nodup)
    (hb1 : ∀ x ∈ fr1, x < c) (hb2 : ∀ x ∈ fr2, c ≤ x) :
    (fr1 ++ fr2).Nodup := by
  rw [List.nodup_append]
  refine ⟨h1, h2, ?_⟩
  intro x hx1 hx2
  have := hb1 x hx1
  have := hb2 x hx2
  omega

/-- The combined per-map effect of `InitializeScriptIdsFromSet`:
fresh-tag bookkeeping and the per-entity relation. -/
theorem recreateMapOne_spec (ids : List Nat) (m : List Entity) (t : Nat) :
    t ≤ (resetNewPass (createPass ids m t).2.2 (createPass ids m t).1
        (createPass ids m t).2.1).2 ∧
    (∃ fr : List Nat,
      List.Perm
        (mapTags (resetNewPass (createPass ids m t).2.2 (createPass ids m t).1
          (createPass ids m t).2.1).1)
        (mapTags m ++ fr) ∧
      fr.Nodup ∧
      ∀ x ∈ fr, t ≤ x ∧
        x < (resetNewPass (createPass ids m t).2.2 (createPass ids m t).1
          (createPass ids m t).2.1).2) ∧
    (∀ e' ∈ (resetNewPass (createPass ids m t).2.2 (createPass ids m t).1
        (createPass ids m t).2.1).1,
      ∃ e ∈ m, e'.scriptId = e.scriptId ∧
        (e'.ai = e.ai ∨ ∃ k, t ≤ k ∧ e'.ai = some ⟨k, e.scriptId⟩)) := by
  obtain ⟨hAt, ⟨fr1, hA1, hA2, hA3⟩, hAmem⟩ := createPass_spec ids m t
  obtain ⟨hBt, ⟨fr2, hB1, hB2, hB3⟩, hBmem⟩ :=
    resetNewPass_spec (createPass ids m t).2.2 (createPass ids m t).1 (createPass ids m t).2.1
  refine ⟨by omega, ⟨fr1 ++ fr2, ?_, ?_, ?_⟩, ?_⟩
  · refine List.Perm.trans hB1 ?_
    have := List.Perm.append_right fr2 hA1
    rw [List.append_assoc] at this
    exact this
  · exact nodup_append_ranges hA2 hB2 (fun x hx => (hA3 x hx).2)
      (fun x hx => (hB3 x hx).1)
  · intro x hx
    rcases List.mem_append.mp hx with hx | hx
    · have := hA3 x hx
      omega
    · have := hB3 x hx
      omega
  · intro e' he'
    obtain ⟨e1, he1, hsid, hai⟩ := hBmem e' he'
    rcases hAmem e1 he1 with ⟨hm, _⟩ | ⟨e0, he0, k0, hk0, heq, hc0⟩
    · refine ⟨e1, hm, hsid, ?_⟩
      rcases hai with h | ⟨k, hk, hval⟩
      · exact Or.inl h
      · exact Or.inr ⟨k, by omega, hval⟩
    · have hsid0 : e1.scriptId = e0.scriptId := by
        rw [heq]
        rfl
      have hai0 : e1.ai = some ⟨k0, e0.scriptId⟩ := by
        rw [heq]
        rfl
      refine ⟨e0, he0, by rw [hsid, hsid0], ?_⟩
      rcases hai with h | ⟨k, hk, hval⟩
      · rw [hai0] at h
        exact Or.inr ⟨k0, hk0, by rw [h]⟩
      · exact Or.inr ⟨k, by omega, by rw [hval, hsid0]⟩

theorem recreateMapsGo_spec (ids : List Nat) :
    ∀ (ms : List (List Entity)) (t : Nat),
    t ≤ (recreateMapsGo ids ms t).2 ∧
    (∃ fr : List Nat,
      List.Perm (allMapsTags (recreateMapsGo ids ms t).1) (allMapsTags ms ++ fr) ∧
      fr.Nodup ∧ ∀ x ∈ fr, t ≤ x ∧ x < (recreateMapsGo ids ms t).2) ∧
    (∀ m' ∈ (recreateMapsGo ids ms t).1, ∀ e' ∈ m', ∃ m ∈ ms, ∃ e ∈ m,
      e'.scriptId = e.scriptId ∧
      (e'.ai = e.ai ∨ ∃ k, t ≤ k ∧ e'.ai = some ⟨k, e.scriptId⟩)) := by
  intro ms
  induction ms with
  | nil =>
    intro t
    refine ⟨le_refl t, ⟨[], by simp [recreateMapsGo, allMapsTags], List.nodup_nil, by simp⟩, ?_⟩
    intro m' hm'
    simp [recreateMapsGo] at hm'
  | cons m ms ih =>
    intro t
    obtain ⟨hOt, ⟨frm, hO1, hO2, hO3⟩, hOmem⟩ := recreateMapOne_spec ids m t
    rcases hA : createPass ids m t with ⟨m1, t1, gs⟩
    rcases hB : resetNewPass gs m1 t1 with ⟨m2, t2⟩
    simp only [hA, hB] at hOt hO1 hO3 hOmem
    obtain ⟨iht, ⟨frr, hR1, hR2, hR3⟩, ihmem⟩ := ih t2
    rcases hC : recreateMapsGo ids ms t2 with ⟨ms', t'⟩
    simp only [hC] at iht hR1 hR3 ihmem
    have hstep : recreateMapsGo ids (m :: ms) t = (m2 :: ms', t') := by
      simp [recreateMapsGo, hA, hB, hC]
    have hp1 : (recreateMapsGo ids (m :: ms) t).1 = m2 :: ms' := by
      rw [hstep]
    have hp2 : (recreateMapsGo ids (m :: ms) t).2 = t' := by
      rw [hstep]
    rw [hp1, hp2]
    refine ⟨by omega, ⟨frm ++ frr, ?_, ?_, ?_⟩, ?_⟩
    · rw [allMapsTags_cons, allMapsTags_cons]
      exact List.Perm.trans (List.Perm.append hO1 hR1) (perm_shuffle _ _ _ _)
    · exact nodup_append_ranges hO2 hR2 (fun x hx => (hO3 x hx).2)
        (fun x hx => (hR3 x hx).1)
    · intro x hx
      rcases List.mem_append.mp hx with hx | hx
      · have := hO3 x hx
        omega
      · have := hR3 x hx
        omega
    · intro m' hm' e' he'
      rcases List.mem_cons.mp hm' with rfl | hm''
      · obtain ⟨e, he, hsid, hai⟩ := hOmem e' he'
        exact ⟨m, List.mem_cons_self _ _, e, he, hsid, hai⟩
      · obtain ⟨mm, hmm, e, he, hsid, hai⟩ := ihmem m' hm'' e' he'
        refine ⟨mm, List.mem_cons_of_mem _ hmm, e, he, hsid, ?_⟩
        rcases hai with h | ⟨k, hk, hval⟩
        · exact Or.inl h
        · exact Or.inr ⟨k, by omega, hval⟩

theorem recreateScriptIdsFromSet_spec (ids : List Nat) (w : WorldSt) :
    w.nextTag ≤ (recreateScriptIdsFromSet ids w).nextTag ∧
    (recreateScriptIdsFromSet ids w).destroyedTags = w.destroyedTags ∧
    (∃ fr : List Nat,
      List.Perm (allTags (recreateScriptIdsFromSet ids w)) (allTags w ++ fr) ∧
      fr.Nodup ∧
      ∀ x ∈ fr, w.nextTag ≤ x ∧ x < (recreateScriptIdsFromSet ids w).nextTag) ∧
    (∀ m' ∈ (recreateScriptIdsFromSet ids w).maps, ∀ e' ∈ m',
      ∃ m ∈ w.maps, ∃ e ∈ m, e'.scriptId = e.scriptId ∧
        (e'.ai = e.ai ∨ ∃ k, w.nextTag ≤ k ∧ e'.ai = some ⟨k, e.scriptId⟩)) := by
  obtain ⟨ht, ⟨fr, h1, h2, h3⟩, hmem⟩ := recreateMapsGo_spec ids w.maps w.nextTag
  rcases hGo : recreateMapsGo ids w.maps w.nextTag with ⟨ms', t'⟩
  simp only [hGo] at ht h1 h3 hmem
  have hmaps : (recreateScriptIdsFromSet ids w).maps = ms' := by
    simp [recreateScriptIdsFromSet, hGo]
  have hnt : (recreateScriptIdsFromSet ids w).nextTag = t' := by
    simp [recreateScriptIdsFromSet, hGo]
  have hdt : (recreateScriptIdsFromSet ids w).destroyedTags = w.destroyedTags := by
    simp [recreateScriptIdsFromSet, hGo]
  simp only [allTags]
  rw [hmaps, hnt, hdt]
  exact ⟨ht, rfl, ⟨fr, h1, h2, h3⟩, hmem⟩

theorem destroyWorld_mem (ids : List Nat) (w : WorldSt) :
    ∀ m' ∈ (destroyScriptIdsFromSet ids w).maps, ∀ e' ∈ m', ∃ m ∈ w.maps, ∃ e ∈ m,
      e'.guid = e.guid ∧ e'.scriptId = e.scriptId ∧
      ((e.scriptId ∈ ids ∧ e'.ai = none) ∨ (e.scriptId ∉ ids ∧ e'.ai = e.ai)) := by
  intro m' hm' e' he'
  rw [(destroyScriptIdsFromSet_spec ids w).1] at hm'
  obtain ⟨m, hm, heq⟩ := List.mem_map.mp hm'
  subst heq
  obtain ⟨e, he, hprops⟩ := destroyMapOne_mem ids m e' he'
  exact ⟨m, hm, e, he, hprops⟩

theorem destroyWorld_none (ids : List Nat) (w : WorldSt) :
    ∀ m' ∈ (destroyScriptIdsFromSet ids w).maps, ∀ e' ∈ m',
      e'.scriptId ∈ ids → e'.ai = none := by
  intro m' hm' e' he' hin
  obtain ⟨m, hm, e, he, hg, hs, hd⟩ := destroyWorld_mem ids w m' hm' e' he'
  rcases hd with ⟨_, hnone⟩ | ⟨hnotin, _⟩
  · exact hnone
  · exact absurd (hs ▸ hin) hnotin

/-- The allocation-tag well-formedness of a world: attached tags are
pairwise distinct, below the allocation counter, and disjoint from the
destroyed set, which itself sits below the counter. -/
def GInv (w : WorldSt) : Prop :=
  (allTags w).Nodup ∧
  (∀ t ∈ allTags w, t < w.nextTag ∧ t ∉ w.destroyedTags) ∧
  (∀ t ∈ w.destroyedTags, t < w.nextTag)

theorem ginv_destroy (ids : List Nat) (w : WorldSt) (h : GInv w) :
    GInv (destroyScriptIdsFromSet ids w) := by
  obtain ⟨hnd, hlive, hdest⟩ := h
  obtain ⟨hmaps, hnt, hdt⟩ := destroyScriptIdsFromSet_spec ids w
  have hperm : List.Perm (allTags w)
      (allTags (destroyScriptIdsFromSet ids w) ++ (w.maps.map (destroyedOf ids)).flatten) := by
    have := destroyMaps_perm ids w.maps
    simp only [allTags, hmaps]
    exact this
  have hnd2 : (allTags (destroyScriptIdsFromSet ids w) ++
      (w.maps.map (destroyedOf ids)).flatten).Nodup := hperm.nodup_iff.mp hnd
  rw [List.nodup_append] at hnd2
  obtain ⟨hnd', hndX, hdisj⟩ := hnd2
  refine ⟨hnd', ?_, ?_⟩
  · intro t ht
    have htw : t ∈ allTags w := hperm.mem_iff.mpr (List.mem_append.mpr (Or.inl ht))
    refine ⟨by rw [hnt]; exact (hlive t htw).1, ?_⟩
    rw [hdt]
    intro hcontra
    rcases List.mem_append.mp hcontra with hc | hc
    · exact (hlive t htw).2 hc
    · exact hdisj ht hc
  · intro t ht
    rw [hdt] at ht
    rw [hnt]
    rcases List.mem_append.mp ht with hc | hc
    · exact hdest t hc
    · have htw : t ∈ allTags w := hperm.mem_iff.mpr (List.mem_append.mpr (Or.inr hc))
      exact (hlive t htw).1

theorem ginv_recreate (ids : List Nat) (w : WorldSt) (h : GInv w) :
    GInv (recreateScriptIdsFromSet ids w) := by
  obtain ⟨hnd, hlive, hdest⟩ := h
  obtain ⟨hnt, hdt, ⟨fr, hperm, hfrnd, hfrb⟩, _⟩ := recreateScriptIdsFromSet_spec ids w
  have hnd' : (allTags (recreateScriptIdsFromSet ids w)).Nodup := by
    rw [hperm.nodup_iff]
    exact nodup_append_ranges hnd hfrnd (fun x hx => (hlive x hx).1)
      (fun x hx => (hfrb x hx).1)
  refine ⟨hnd', ?_, ?_⟩
  · intro t ht
    have := hperm.mem_iff.mp ht
    rw [hdt]
    rcases List.mem_append.mp this with hc | hc
    · exact ⟨by have := (hlive t hc).1; omega, (hlive t hc).2⟩
    · refine ⟨(hfrb t hc).2, ?_⟩
      intro hcontra
      have := hdest t hcontra
      have := (hfrb t hc).1
      omega
  · intro t ht
    rw [hdt] at ht
    have := hdest t ht
    omega

theorem afterHooks_world (ctx : String) (s : GlobalState) :
    (afterHooks ctx s).world =
      recreateScriptIdsFromSet (removedSet ctx s)
        (destroyScriptIdsFromSet (removedSet ctx s)
          (destroyScriptIdsFromSet (getScriptIDsToRemove s ctx) s.world)) := by
  simp [afterHooks, beforeReleaseContextCG, beforeSwapContextCG, removedSet]

/-- C1, amended: after `BeforeReleaseContext(ctx)` and
`BeforeSwapContext(false)`, (a) no entity is attached to a destroyed
behavior instance, (b) every entity whose script id is in the full
removal set (the context's ids, the previously accumulated removed ids
and the recently added ids) has either a freshly constructed behavior
or none at all, and (c) no behavior instance constructed before the
cycle and built from a removed id survives anywhere.  Entities whose
ids are untouched keep their old, still-valid behavior, which is what
the unamended claim ruled out. -/
theorem c1_amended (s : GlobalState) (ctx : String)
    (hnodup : (allTags s.world).Nodup)
    (hbound : ∀ t ∈ allTags s.world, t < s.world.nextTag)
    (hclean : ∀ t ∈ allTags s.world, t ∉ s.world.destroyedTags)
    (hdestr : ∀ t ∈ s.world.destroyedTags, t < s.world.nextTag)
    (hsrc : ∀ m ∈ s.world.maps, ∀ e ∈ m,
      e.ai.all (fun a => decide (a.srcId = e.scriptId)) = true) :
    (∀ m ∈ (afterHooks ctx s).world.maps, ∀ e ∈ m, ∀ a, e.ai = some a →
      a.tag ∉ (afterHooks ctx s).world.destroyedTags) ∧
    (∀ m ∈ (afterHooks ctx s).world.maps, ∀ e ∈ m, e.scriptId ∈ removedSet ctx s →
      e.ai = none ∨ ∃ a, e.ai = some a ∧ s.world.nextTag ≤ a.tag) ∧
    (∀ m ∈ (afterHooks ctx s).world.maps, ∀ e ∈ m, ∀ a, e.ai = some a →
      a.tag < s.world.nextTag → a.srcId ∉ removedSet ctx s) := by
  have hG0 : GInv s.world := ⟨hnodup, fun t ht => ⟨hbound t ht, hclean t ht⟩, hdestr⟩
  rw [afterHooks_world]
  set I := getScriptIDsToRemove s ctx with hI
  set R := removedSet ctx s with hR
  set w1 := destroyScriptIdsFromSet I s.world with hw1
  set w2 := destroyScriptIdsFromSet R w1 with hw2
  have hnt1 : w1.nextTag = s.world.nextTag := (destroyScriptIdsFromSet_spec I s.world).2.1
  have hnt2 : w2.nextTag = s.world.nextTag := by
    rw [hw2, (destroyScriptIdsFromSet_spec R w1).2.1, hnt1]
  have hG3 : GInv (recreateScriptIdsFromSet R w2) :=
    ginv_recreate R w2 (ginv_destroy R w1 (ginv_destroy I s.world hG0))
  obtain ⟨_, _, _, hmem3⟩ := recreateScriptIdsFromSet_spec R w2
  refine ⟨?_, ?_, ?_⟩
  · -- (a): no dangling
    intro m hm e he a ha
    have htag : a.tag ∈ allTags (recreateScriptIdsFromSet R w2) :=
      tag_mem_allMapsTags hm he ha
    exact (hG3.2.1 a.tag htag).2
  · -- (b): removed-set entities are fresh or empty
    intro m hm e he hin
    obtain ⟨m2, hm2, e2, he2, hsid, hai⟩ := hmem3 m hm e he
    have he2none : e2.ai = none :=
      destroyWorld_none R w1 m2 hm2 e2 he2 (hsid ▸ hin)
    rcases hai with h | ⟨k, hk, hval⟩
    · exact Or.inl (h.trans he2none)
    · exact Or.inr ⟨⟨k, e2.scriptId⟩, hval, by rw [hnt2] at hk; exact hk⟩
  · -- (c): no surviving pre-cycle behavior from a removed id
    intro m hm e he a ha htag
    obtain ⟨m2, hm2, e2, he2, hsid, hai⟩ := hmem3 m hm e he
    have hai2 : e2.ai = some a := by
      rcases hai with h | ⟨k, hk, hval⟩
      · rw [← h, ha]
      · rw [hval] at ha
        injection ha with ha'
        rw [← ha'] at htag
        simp only at htag
        rw [hnt2] at hk
        omega
    obtain ⟨m1, hm1, e1, he1, _, hsid1, hd1⟩ := destroyWorld_mem R w1 m2 hm2 e2 he2
    rcases hd1 with ⟨_, hnone⟩ | ⟨hnotin1, haieq1⟩
    · rw [hai2] at hnone
      cases hnone
    · have hai1 : e1.ai = some a := by rw [← haieq1, hai2]
      obtain ⟨m0, hm0, e0, he0, _, hsid0, hd0⟩ := destroyWorld_mem I s.world m1 hm1 e1 he1
      rcases hd0 with ⟨_, hnone⟩ | ⟨hnotin0, haieq0⟩
      · rw [hai1] at hnone
        cases hnone
      · have hai0 : e0.ai = some a := by rw [← haieq0, hai1]
        have hsrca : a.srcId = e0.scriptId := by
          have := hsrc m0 hm0 e0 he0
          rw [hai0] at this
          simpa using this
        rw [hsrca, ← hsid0]
        exact hnotin1

/-- A three-entity world for the C1 witness: an entity on the removed
id 5, one on the untouched id 7, and one on the recently added id 9. -/
def sC1w : GlobalState :=
  { initState with
    idsOfContexts := [("m1", 5), ("keep", 7)]
    recentlyAdded := [9]
    world :=
      { maps := [[
          { guid := 1, scriptId := 5, alive := true, charmed := false,
            evadeState := false, aiReady := true, events := 0, ai := some ⟨0, 5⟩ },
          { guid := 2, scriptId := 7, alive := true, charmed := false,
            evadeState := false, aiReady := true, events := 0, ai := some ⟨1, 7⟩ },
          { guid := 3, scriptId := 9, alive := false, charmed := false,
            evadeState := false, aiReady := true, events := 0, ai := some ⟨2, 9⟩ }]]
        nextTag := 3
        destroyedTags := [] } }

/-- Witness for the amended C1 at the concrete state `sC1w`. -/
theorem c1_amended_witness :
    (allTags sC1w.world).Nodup ∧
    (∀ t ∈ allTags sC1w.world, t < sC1w.world.nextTag) ∧
    (∀ t ∈ allTags sC1w.world, t ∉ sC1w.world.destroyedTags) ∧
    (∀ t ∈ sC1w.world.destroyedTags, t < sC1w.world.nextTag) ∧
    (∀ m ∈ sC1w.world.maps, ∀ e ∈ m,
      e.ai.all (fun a => decide (a.srcId = e.scriptId)) = true) ∧
    ((∀ m ∈ (afterHooks "m1" sC1w).world.maps, ∀ e ∈ m, ∀ a, e.ai = some a →
        a.tag ∉ (afterHooks "m1" sC1w).world.destroyedTags) ∧
      (∀ m ∈ (afterHooks "m1" sC1w).world.maps, ∀ e ∈ m,
        e.scriptId ∈ removedSet "m1" sC1w →
        e.ai = none ∨ ∃ a, e.ai = some a ∧ sC1w.world.nextTag ≤ a.tag) ∧
      (∀ m ∈ (afterHooks "m1" sC1w).world.maps, ∀ e ∈ m, ∀ a, e.ai = some a →
        a.tag < sC1w.world.nextTag → a.srcId ∉ removedSet "m1" sC1w)) :=
  ⟨by decide, by decide, by decide, by decide, by decide,
    c1_amended sC1w "m1" (by decide) (by decide) (by decide) (by decide) (by decide)⟩

end ScriptMgr
